import Mathlib

/-!
Verification development for the Kellerbingo vision pipeline
(src/services/geminiService.ts).

JavaScript numbers are modelled as rationals (`ℚ`), pixel coordinates as
integers, raw strings as `String`.  Canvas pixel buffers are modelled as
functions from coordinates to a boolean ink classification.  The single
asynchronous suspension point (the external text recognizer) is modelled by an
`Option` parameter: `none` stands for a call that does not resolve within the
60-second bound, `some words` for a successful response.
-/

set_option maxRecDepth 40000

namespace Kellerbingo

/-- Integer-or-fractional rectangle `{x, y, w, h}`, the universal geometric
unit of the pipeline (fields are JS numbers, hence `ℚ`). -/
structure Rect where
  x : ℚ
  y : ℚ
  w : ℚ
  h : ℚ
deriving DecidableEq, Repr

/-- A row cluster during grid segmentation: representative top `y`, band
height `h`, and the member component rectangles. -/
structure RowCluster where
  y : ℚ
  h : ℚ
  cells : List Rect
deriving DecidableEq, Repr

/-- A ticket candidate: the rows assigned to one physical ticket. -/
structure TicketCandidate where
  rows : List RowCluster
deriving DecidableEq, Repr

/-- One interpolated ticket row: the six final cells plus the row band. -/
structure InterpRow where
  cells : List Rect
  rowY : ℚ
  rowH : ℚ
deriving DecidableEq, Repr

/-- A recognized word returned by the external recognizer. -/
structure DetectedWord where
  text : String
  bbox : Rect
  confidence : ℚ
deriving DecidableEq, Repr

/-- Sprite-map entry kind: a numeric cell or the identifier field. -/
inductive CellKind where
  | number
  | id
deriving DecidableEq, Repr

/-- One sprite-map entry linking a composite-sheet slot to its origin. -/
structure MappedCell where
  ticketIndex : ℕ
  rowIndex : ℕ
  colIndex : ℕ
  spriteRect : Rect
  originalRect : Rect
  kind : CellKind
deriving DecidableEq, Repr

/-- The result produced for one ticket: identifier and the 3x6 number grid. -/
structure ScanResult where
  ticketId : String
  grid : List (List ℕ)
deriving DecidableEq, Repr

/-- Result of the fast validation interface (drawing omitted). -/
structure ValidationResult where
  isValid : Bool
  message : String
  ticketCount : ℕ
deriving DecidableEq, Repr

/-! ### Stable sorting, modelling JS `Array.prototype.sort`

JS `sort` with a numeric comparator is stable (ES2019).  We model it by a
stable insertion sort parameterized by a boolean `le`: an element is inserted
after every earlier element that compares less-or-equal to it. -/

/-- Insert `a` after all leading elements `b` with `le b a`. -/
def insertStable (le : α → α → Bool) (a : α) : List α → List α
  | [] => [a]
  | b :: bs => if le b a then b :: insertStable le a bs else a :: b :: bs

/-- Stable sort: process elements left to right, inserting each into the
sorted prefix after all elements that compare less-or-equal. -/
def stableSort (le : α → α → Bool) (l : List α) : List α :=
  l.foldl (fun acc a => insertStable le a acc) []

/-! ### Grid interpolation (`interpolateGrid`) -/

/-- Greedy 1-D clustering of the sorted cell left edges: a cell joins the
current cluster when its `x` is within `0.6 * avgW` of the running mean,
otherwise the cluster is flushed and a new one starts. -/
def clusterColumns (avgW : ℚ) : List Rect → ℚ → ℚ → List ℚ
  | [], currentX, _ => [currentX]
  | c :: cs, currentX, clusterCount =>
    if c.x - currentX < avgW * (6/10) then
      clusterColumns avgW cs ((currentX * clusterCount + c.x) / (clusterCount + 1)) (clusterCount + 1)
    else
      currentX :: clusterColumns avgW cs c.x 1

/-- Pad the column list on the right with evenly spaced synthetic columns
(`+1.05 * avgW` each) until six exist; fuel-bounded version of the JS
`while (columnsX.length < 6 && columnsX.length > 0)` loop. -/
def padColumns (avgW : ℚ) : ℕ → List ℚ → List ℚ
  | 0, cols => cols
  | fuel + 1, cols =>
    if cols.length < 6 ∧ cols.length > 0 then
      match cols.getLast? with
      | some lastX => padColumns avgW fuel (cols ++ [lastX + avgW * (105/100)])
      | none => cols
    else cols

/-- Average cell width pooled over all rows (defaults to 50 when empty). -/
def avgWidthOf (rows : List RowCluster) : ℚ :=
  let totalW := rows.foldl (fun a r => r.cells.foldl (fun a c => a + c.w) a) 0
  let count : ℚ := rows.foldl (fun a r => a + r.cells.length) 0
  if count > 0 then totalW / count else 50

/-- Average cell height pooled over all rows (defaults to 50 when empty). -/
def avgHeightOf (rows : List RowCluster) : ℚ :=
  let totalH := rows.foldl (fun a r => r.cells.foldl (fun a c => a + c.h) a) 0
  let count : ℚ := rows.foldl (fun a r => a + r.cells.length) 0
  if count > 0 then totalH / count else 50

/-- The clustered and padded column centers for a list of rows. -/
def columnsOf (rows : List RowCluster) : List ℚ :=
  let avgW := avgWidthOf rows
  let allCells := stableSort (fun a b => decide (a.x ≤ b.x)) (rows.flatMap (fun r => r.cells))
  let raw :=
    match allCells with
    | [] => []
    | c :: cs => clusterColumns avgW cs c.x 1
  stableSort (fun a b => decide (a ≤ b)) (padColumns avgW 6 raw)

/-- Column interpolation: reuse a detected cell whose `x` lies within
`0.5 * avgW` of the column center, else synthesize a placeholder rectangle.
The column fallback `columnsX[i] || (i * avgW * 1.1)` follows JS truthiness:
a missing or zero entry falls back to the evenly spaced position. -/
def interpolateGrid (rows : List RowCluster) : List InterpRow :=
  let avgW := avgWidthOf rows
  let avgH := avgHeightOf rows
  let columnsX := columnsOf rows
  rows.map (fun row =>
    { cells := (List.range 6).map (fun i =>
        let colX :=
          match columnsX.get? i with
          | some v => if v = 0 then (i : ℚ) * avgW * (11/10) else v
          | none => (i : ℚ) * avgW * (11/10)
        match row.cells.find? (fun c => |c.x - colX| < avgW * (1/2)) with
        | some existing => existing
        | none => { x := (⌊colX⌋ : ℚ), y := (⌊row.y⌋ : ℚ), w := (⌊avgW⌋ : ℚ), h := (⌊avgH⌋ : ℚ) }),
      rowY := row.y,
      rowH := row.h })

/-- Re-package an interpolated grid as row clusters, for feeding the
interpolation its own output. -/
def rowsOfInterp (g : List InterpRow) : List RowCluster :=
  g.map (fun r => { y := r.rowY, h := r.rowH, cells := r.cells })

/-! ### Row clustering and ticket chunking (`detectTicketsInImage`) -/

/-- Append a component to the first row whose center is within half the row
height of the component center, or start a new row at the end. -/
def addToRows : List RowCluster → Rect → List RowCluster
  | [], comp => [{ y := comp.y, h := comp.h, cells := [comp] }]
  | r :: rs, comp =>
    if |comp.y + comp.h / 2 - (r.y + r.h / 2)| < r.h * (1/2) then
      { r with cells := r.cells ++ [comp] } :: rs
    else
      r :: addToRows rs comp

/-- The y-sorted list of nonempty rows clustered from a component list:
components are sorted by `y`, greedily clustered into rows, each row's cells
sorted by `x`, rows with at least one cell kept, rows sorted by `y`. -/
def validRowsOf (comps : List Rect) : List RowCluster :=
  let sorted := stableSort (fun a b => decide (a.y ≤ b.y)) comps
  let rows := sorted.foldl addToRows []
  let rows := rows.map (fun r => { r with cells := stableSort (fun a b => decide (a.x ≤ b.x)) r.cells })
  let valid := rows.filter (fun r => 1 ≤ r.cells.length)
  stableSort (fun a b => decide (a.y ≤ b.y)) valid

/-- Split an accumulated run of rows into consecutive groups of exactly three;
the remainder group of fewer than three rows is dropped. -/
def flushChunks (cur : List RowCluster) : List TicketCandidate :=
  (List.range (cur.length / 3)).map (fun k => { rows := (cur.drop (3 * k)).take 3 })

/-- Greedy ticket chunking: accumulate consecutive rows while the vertical gap
to the previous row is below `0.2 * row.h`; on a larger gap or at end of
input, flush the accumulated run in groups of three. -/
def chunkRows : List RowCluster → List RowCluster → List TicketCandidate → List TicketCandidate
  | [], cur, out => out ++ flushChunks cur
  | row :: rest, cur, out =>
    match cur.getLast? with
    | none => chunkRows rest [row] out
    | some prev =>
      if row.y - (prev.y + prev.h) < row.h * (1/5) then
        chunkRows rest (cur ++ [row]) out
      else
        chunkRows rest [row] (out ++ flushChunks cur)

/-- Ticket detection from a raw component list: row clustering followed by
ticket chunking. -/
def detectTicketsFromComponents (comps : List Rect) : List TicketCandidate :=
  chunkRows (validRowsOf comps) [] []

/-! ### Composite sheet layout (`generateCompositeCanvas`)

Only the sprite map is modelled; actual pixel drawing is outside the
embedding.  The per-cell ink test reads rendered pixels, so it is abstracted
into an oracle `ink : Rect → Bool` applied to the source crop rectangle that
the code passes to `hasInk`. -/

/-- Composite tile size for one cell sprite, in pixels. -/
def cellSize : ℚ := 160

/-- Composite inter-cell padding, in pixels. -/
def spritePadding : ℚ := 400

/-- Vertical extent reserved for one ticket block in the composite sheet. -/
def ticketHeight : ℚ := 3 * (cellSize + spritePadding) + spritePadding

/-- The sprite rectangle of the numeric cell `(tIdx, r, c)` in the composite
sheet. -/
def numberSpriteRect (tIdx r c : ℕ) : Rect :=
  { x := spritePadding + (c : ℚ) * (cellSize + spritePadding),
    y := (tIdx : ℚ) * ticketHeight + spritePadding + (r : ℚ) * (cellSize + spritePadding),
    w := cellSize,
    h := cellSize }

/-- The central crop of a source cell: 32 percent margin removed on each side,
with the JS `Math.floor` coordinate truncation. -/
def cropRectOf (cell : Rect) : Rect :=
  let mX := cell.w * (32/100)
  let mY := cell.h * (32/100)
  { x := (⌊cell.x + mX⌋ : ℚ), y := (⌊cell.y + mY⌋ : ℚ),
    w := (⌊cell.w - mX * 2⌋ : ℚ), h := (⌊cell.h - mY * 2⌋ : ℚ) }

/-- The sprite-map entry for numeric cell `(tIdx, r, c)`, present iff the ink
test accepts the central crop of the source cell. -/
def numberEntry (ink : Rect → Bool) (tIdx : ℕ) (irows : List InterpRow) (r c : ℕ) :
    Option MappedCell :=
  match (irows.get? r).bind (fun row => row.cells.get? c) with
  | none => none
  | some cell =>
    if ink (cropRectOf cell) then
      some { ticketIndex := tIdx, rowIndex := r, colIndex := c,
             spriteRect := numberSpriteRect tIdx r c, originalRect := cell, kind := .number }
    else none

/-- The sprite-map entry for the identifier field of ticket `tIdx`: a search
rectangle right of the last cell of the last row, clamped to the source image
bounds, kept only when larger than 10x10. -/
def idEntry (width height : ℚ) (tIdx : ℕ) (irows : List InterpRow) : Option MappedCell :=
  match (irows.get? 2).bind (fun lastRow => lastRow.cells.get? 5) with
  | none => none
  | some lastCell =>
    let searchX := lastCell.x + lastCell.w + lastCell.w * (30/100)
    let searchY := lastCell.y
    let searchW := lastCell.w * (18/10)
    let searchH := lastCell.h
    let safeX := min searchX (width - 1)
    let safeY := min searchY (height - 1)
    let safeW := min searchW (width - safeX)
    let safeH := min searchH (height - safeY)
    let aspect : ℚ := if safeH > 0 then safeW / safeH else 3
    let targetIDWidth : ℚ := (⌊cellSize * aspect⌋ : ℚ)
    if safeW > 10 ∧ safeH > 10 then
      some { ticketIndex := tIdx, rowIndex := 2, colIndex := 6,
             spriteRect := { x := spritePadding + 6 * (cellSize + spritePadding),
                             y := (tIdx : ℚ) * ticketHeight + spritePadding + 2 * (cellSize + spritePadding),
                             w := targetIDWidth, h := cellSize },
             originalRect := { x := safeX, y := safeY, w := safeW, h := safeH },
             kind := .id }
    else none

/-- The sprite map of the composite sheet: per ticket, the number entries in
row-major order followed by the optional identifier entry. -/
def generateCompositeMap (width height : ℚ) (ink : Rect → Bool)
    (tickets : List TicketCandidate) : List MappedCell :=
  tickets.enum.flatMap (fun p =>
    let tIdx := p.1
    let irows := interpolateGrid p.2.rows
    ((List.range 3).flatMap (fun r =>
      (List.range 6).filterMap (fun c => numberEntry ink tIdx irows r c)))
    ++ (idEntry width height tIdx irows).toList)

/-! ### Numeric cell text normalization (post-processor, number branch) -/

/-- ASCII digit test, the `[0-9]` character class. -/
def isDigitChar (c : Char) : Bool :=
  '0' ≤ c ∧ c ≤ '9'

/-- ASCII letter test, the `[a-zA-Z]` character class. -/
def isAsciiLetter (c : Char) : Bool :=
  ('a' ≤ c ∧ c ≤ 'z') ∨ ('A' ≤ c ∧ c ≤ 'Z')

/-- Case-insensitive membership in the numeral-confusable letter class
`[IlOSBZAGT]`. -/
def isConfusableLetter (c : Char) : Bool :=
  c ∈ ['I', 'i', 'L', 'l', 'O', 'o', 'S', 's', 'B', 'b', 'Z', 'z', 'A', 'a', 'G', 'g', 'T', 't']

/-- Apply a character transformation, built over the character list so that
it evaluates by kernel reduction. -/
def mapChars (f : Char → Char) (s : String) : String :=
  String.mk (s.toList.map f)

/-- Global single-character replacement, the JS `replace(/a/g, b)`. -/
def replaceChar (a b : Char) (s : String) : String :=
  mapChars (fun c => if c = a then b else c) s

/-- Remove leading and trailing whitespace, the JS `trim()`. -/
def trimString (s : String) : String :=
  String.mk (((s.toList.dropWhile Char.isWhitespace).reverse.dropWhile
    Char.isWhitespace).reverse)

/-- Decimal value of a nonempty digit string (the `parseInt` of an all-digit
string). -/
def digitsToNat (s : String) : ℕ :=
  s.toList.foldl (fun acc c => 10 * acc + (c.toNat - 48)) 0

/-- Keep only the characters satisfying `p`. -/
def filterChars (p : Char → Bool) (s : String) : String :=
  String.mk (s.toList.filter p)

/-- The confusable-letter substitution applied by the code: uppercase first,
then the digit-wise single-character replacements in source order. -/
def substituteConfusables (s : String) : String :=
  let t := mapChars Char.toUpper s
  let t := replaceChar 'l' '1' t
  let t := replaceChar 'I' '1' t
  let t := replaceChar 'O' '0' t
  let t := replaceChar 'B' '8' t
  let t := replaceChar 'S' '5' t
  let t := replaceChar 'Z' '7' t
  let t := replaceChar 'A' '4' t
  let t := replaceChar 'G' '6' t
  replaceChar 'T' '7' t

/-- The integer a candidate text normalizes to: substitute, strip non-digits,
parse; `none` when no digits remain (`parseInt` yields `NaN`). -/
def normalizedInt (s : String) : Option ℕ :=
  let clean := filterChars isDigitChar (substituteConfusables s)
  if clean = "" then none else some (digitsToNat clean)

/-- The accepted cell value of a candidate text: the normalized integer if it
is strictly between 0 and 100, else `none` (cell stays 0). -/
def acceptedCellValue (s : String) : Option ℕ :=
  match normalizedInt s with
  | none => none
  | some n => if 0 < n ∧ n < 100 then some n else none

/-- The stray-text rejection test: after excluding numeral-confusable
letters, more letters than digits remain and the text is longer than one
character. -/
def strayTextReject (s : String) : Bool :=
  let alphaCount := (s.toList.filter isAsciiLetter).length
  let digitCount := (s.toList.filter isDigitChar).length
  let numberLikeAlpha := (s.toList.filter isConfusableLetter).length
  alphaCount - numberLikeAlpha > digitCount ∧ s.length > 1

/-! ### Grid update -/

/-- The all-zero 3x6 starting grid of a ticket result. -/
def initialGrid : List (List ℕ) :=
  List.replicate 3 (List.replicate 6 0)

/-- Set entry `(r, c)` of a grid (out-of-range indices leave it unchanged). -/
def setCell (g : List (List ℕ)) (r c v : ℕ) : List (List ℕ) :=
  g.set r ((g.getD r []).set c v)

/-- Does a point lie strictly inside a rectangle? -/
def pointInRect (p : ℚ × ℚ) (r : Rect) : Bool :=
  p.1 > r.x ∧ p.1 < r.x + r.w ∧ p.2 > r.y ∧ p.2 < r.y + r.h

/-- Does the center of a word's bounding box lie strictly inside a rectangle? -/
def centerInRect (w : DetectedWord) (r : Rect) : Bool :=
  pointInRect (w.bbox.x + w.bbox.w / 2, w.bbox.y + w.bbox.h / 2) r

/-- Process one number mapping: keep the words centered in its sprite slot,
pick the highest-confidence one (stable on ties), apply the height and
stray-text checks, and write the accepted normalized value into the grid. -/
def processNumberItem (words : List DetectedWord) (g : List (List ℕ)) (item : MappedCell) :
    List (List ℕ) :=
  let candidates := words.filter (fun w => centerInRect w item.spriteRect)
  match stableSort (fun a b => decide (b.confidence ≤ a.confidence)) candidates with
  | [] => g
  | best :: _ =>
    let rawText := trimString best.text
    if best.bbox.h / item.spriteRect.h < 33/100 then g
    else if strayTextReject rawText then g
    else
      match acceptedCellValue rawText with
      | some n => setCell g item.rowIndex item.colIndex n
      | none => g

/-! ### Identifier reconstruction (post-processor, identifier branch) -/

/-- Letter class of the prefix-stripping regex: ASCII letters plus the German
letters in `[A-Za-zäöüÄÖÜß]`. -/
def isIdLetter (c : Char) : Bool :=
  isAsciiLetter c ∨ c ∈ ['ä', 'ö', 'ü', 'Ä', 'Ö', 'Ü', 'ß']

/-- Fuel-bounded core of the letter-run removal; every step consumes at least
one character, so a fuel equal to the input length never runs out. -/
def stripLetterRunsF : ℕ → List Char → List Char
  | _, [] => []
  | 0, l => l
  | fuel + 1, c :: cs =>
    if isIdLetter c && (cs.head?.map isIdLetter).getD false then
      stripLetterRunsF fuel (cs.dropWhile isIdLetter)
    else c :: stripLetterRunsF fuel cs

/-- Remove every maximal run of two or more letters, keeping single letters;
the global replacement `replace(/[A-Za-zäöüÄÖÜß]{2,}/g, '')`. -/
def stripLetterRuns (l : List Char) : List Char :=
  stripLetterRunsF l.length l

/-- Normalize the potential slash characters `| \ I : .` to `/`. -/
def normalizeSlashChars (cs : List Char) : List Char :=
  cs.map (fun c => if c ∈ ['|', '\\', 'I', ':', '.'] then '/' else c)

/-- Whitespace test for the `\s` class. -/
def isWsChar (c : Char) : Bool :=
  c.isWhitespace

/-- Attempt the pattern `(\d{1,5})\s*\/\s*(\d{1,5})` at the start of the
character list: a run of one to five digits, optional whitespace, a slash,
optional whitespace, then at least one digit (greedily up to five). -/
def slashMatchAt (cs : List Char) : Option (String × String) :=
  let d1 := cs.takeWhile isDigitChar
  if 1 ≤ d1.length ∧ d1.length ≤ 5 then
    match (cs.dropWhile isDigitChar).dropWhile isWsChar with
    | '/' :: rest =>
      let d2 := (rest.dropWhile isWsChar).takeWhile isDigitChar
      if 1 ≤ d2.length then some (String.mk d1, String.mk (d2.take 5)) else none
    | _ => none
  else none

/-- Leftmost match of `(\d{1,5})\s*\/\s*(\d{1,5})`, scanning start positions
left to right. -/
def slashMatch : List Char → Option (String × String)
  | [] => none
  | c :: cs =>
    match slashMatchAt (c :: cs) with
    | some r => some r
    | none => slashMatch cs

/-- Fuel-bounded core of whitespace tokenization; every step consumes at
least one character, so a fuel equal to the input length never runs out. -/
def splitWsTokensF : ℕ → List Char → List String
  | _, [] => []
  | 0, _ => []
  | fuel + 1, c :: cs =>
    if isWsChar c then splitWsTokensF fuel cs
    else
      String.mk (c :: cs.takeWhile (fun d => !(isWsChar d))) ::
        splitWsTokensF fuel (cs.dropWhile (fun d => !(isWsChar d)))

/-- Split a character list on whitespace runs into nonempty tokens. -/
def splitWsTokens (l : List Char) : List String :=
  splitWsTokensF l.length l

/-- The code's fallback: replace every character that is not a digit and not
whitespace by a space, split on whitespace, and if at least two tokens remain
join the last two as `"<second-to-last>/<last>"`. -/
def fallbackLastTwo (cs : List Char) : Option String :=
  let loose := cs.map (fun c => if ¬ (isDigitChar c ∨ isWsChar c) then ' ' else c)
  let parts := splitWsTokens loose
  if h : 2 ≤ parts.length then
    some (parts.get ⟨parts.length - 2, by omega⟩ ++ "/" ++ parts.get ⟨parts.length - 1, by omega⟩)
  else none

/-- Identifier reconstruction from the space-joined identifier-field text:
strip letter runs, normalize slash-like characters, try the slash pattern,
else fall back to the last two whitespace-separated tokens. -/
def reconstructId (s : String) : Option String :=
  let processed := normalizeSlashChars (stripLetterRuns s.toList)
  match slashMatch processed with
  | some (a, b) => some (a ++ "/" ++ b)
  | none => fallbackLastTwo processed

/-- The fallback as the specification phrases it (a second definition used
only for comparison): keep only digits and whitespace, deleting every other
character, then split and join the last two tokens. -/
def fallbackLastTwoSpec (cs : List Char) : Option String :=
  let loose := cs.filter (fun c => isDigitChar c ∨ isWsChar c)
  let parts := splitWsTokens loose
  if h : 2 ≤ parts.length then
    some (parts.get ⟨parts.length - 2, by omega⟩ ++ "/" ++ parts.get ⟨parts.length - 1, by omega⟩)
  else none

/-- Identifier reconstruction as the specification phrases it, differing from
the code only in the fallback's treatment of non-digit characters. -/
def reconstructIdSpec (s : String) : Option String :=
  let processed := normalizeSlashChars (stripLetterRuns s.toList)
  match slashMatch processed with
  | some (a, b) => some (a ++ "/" ++ b)
  | none => fallbackLastTwoSpec processed

/-- Space-join a list of strings, the JS `join(' ')`. -/
def joinSpace : List String → String
  | [] => ""
  | [s] => s
  | s :: rest => s ++ " " ++ joinSpace rest

/-! ### Per-ticket result assembly and the full analysis -/

/-- Build the result of ticket `tIdx` from the sprite map and the recognized
words: fold the number mappings over the all-zero grid, then reconstruct the
identifier from the words centered in the identifier slot; `placeholder` is
the pre-generated random identifier the code starts from. -/
def buildResult (map : List MappedCell) (words : List DetectedWord) (placeholder : String)
    (tIdx : ℕ) : ScanResult :=
  let numberItems := map.filter (fun m => m.ticketIndex = tIdx ∧ m.kind = CellKind.number)
  let g := numberItems.foldl (processNumberItem words) initialGrid
  let tid :=
    match map.find? (fun m => m.ticketIndex = tIdx ∧ m.kind = CellKind.id) with
    | none => placeholder
    | some idItem =>
      let idWords := words.filter (fun w => centerInRect w idItem.spriteRect)
      match idWords with
      | [] => placeholder
      | _ :: _ =>
        match reconstructId (joinSpace (idWords.map (fun w => w.text))) with
        | some tid => tid
        | none => placeholder
  { ticketId := tid, grid := g }

/-- The post-processing stage applied to every detected ticket. -/
def postProcess (ticketCount : ℕ) (map : List MappedCell) (words : List DetectedWord)
    (placeholders : ℕ → String) : List ScanResult :=
  (List.range ticketCount).map (fun t => buildResult map words (placeholders t) t)

/-- The full analysis from the detected tickets onward: build the composite
sprite map and post-process the recognizer output against it. -/
def analyzeDetectedTickets (width height : ℚ) (ink : Rect → Bool)
    (tickets : List TicketCandidate) (words : List DetectedWord)
    (placeholders : ℕ → String) : List ScanResult :=
  let ocrWords := words.map (fun w => { w with text := trimString w.text })
  postProcess tickets.length (generateCompositeMap width height ink tickets) ocrWords placeholders

/-! ### Morphological cleaning (`erodeCanvas`) -/

/-- Is the integer pixel `(x, y)` inside rectangle `r`? -/
def pixelInRect (x y : ℤ) (r : Rect) : Bool :=
  (x : ℚ) ≥ r.x ∧ (x : ℚ) < r.x + r.w ∧ (y : ℚ) ≥ r.y ∧ (y : ℚ) < r.y + r.h

/-- Number of ink pixels among the eight neighbors of `(x, y)`. -/
def inkNeighbors8 (img : ℤ → ℤ → Bool) (x y : ℤ) : ℕ :=
  [(x - 1, y), (x + 1, y), (x, y - 1), (x, y + 1),
   (x - 1, y - 1), (x + 1, y - 1), (x - 1, y + 1), (x + 1, y + 1)].countP
    (fun p => img p.1 p.2)

/-- One cleaning pass over a `w x h` image (`true` = ink).  The output starts
all-Paper, only interior pixels are evaluated, protected pixels are copied
from the input, and an ink pixel survives pass 0 iff its four 4-neighbors
are all ink, and a later pass iff at least three of its eight 8-neighbors
are ink. -/
def erodePass (img : ℤ → ℤ → Bool) (w h : ℤ) (protRects : List Rect) (iter : ℕ)
    (x y : ℤ) : Bool :=
  if 1 ≤ y ∧ y < h - 1 ∧ 1 ≤ x ∧ x < w - 1 then
    if protRects.any (pixelInRect x y) then img x y
    else if img x y then
      if iter = 0 then
        img (x - 1) y ∧ img (x + 1) y ∧ img x (y - 1) ∧ img x (y + 1)
      else
        3 ≤ inkNeighbors8 img x y
    else false
  else false

/-- The iterated cleaning operation: pass 0 is the erosion, every later pass
the despeckle. -/
def erodeCanvas (img : ℤ → ℤ → Bool) (w h : ℤ) (protRects : List Rect)
    (iterations : ℕ) : ℤ → ℤ → Bool :=
  (List.range iterations).foldl (fun acc iter => erodePass acc w h protRects iter) img

/-! ### Ink presence test (`hasInk`) -/

/-- Number of dense-ink pixels in the cropped `w x h` region: interior ink
pixels with at least six of their eight neighbors also ink. -/
def denseInkCount (img : ℤ → ℤ → Bool) (w h : ℤ) : ℕ :=
  ((List.range (h - 2).toNat).flatMap (fun j =>
    (List.range (w - 2).toNat).map (fun i => (((i : ℤ) + 1), ((j : ℤ) + 1))))).countP
    (fun p => img p.1 p.2 ∧ 6 ≤ inkNeighbors8 img p.1 p.2)

/-- The ink presence test: the fraction of dense-ink pixels strictly exceeds
one percent of the region area. -/
def hasInk (img : ℤ → ℤ → Bool) (w h : ℤ) : Bool :=
  (denseInkCount img w h : ℚ) / ((w : ℚ) * (h : ℚ)) > 1/100

/-! ### White component detection (`findWhiteComponents`)

The detector works on a conceptual downsample of fixed 300-pixel target
width.  The flood fill uses an explicit stack (the JS array is pushed and
popped at its end); the unbounded JS loop is modelled with a fuel of one more
than the number of downsampled cells, which the termination lemmas below show
is enough to drain the stack. -/

/-- The four flood-fill neighbor candidates of a cell, in source push order. -/
def neighborsOf (cx cy : ℤ) : List (ℤ × ℤ) :=
  [(cx + 1, cy), (cx - 1, cy), (cx, cy + 1), (cx, cy - 1)]

/-- Flood-fill state: the visited set, the explicit stack, and the running
bounding box of popped cells. -/
structure BfsState where
  visited : Finset (ℤ × ℤ)
  stack : List (ℤ × ℤ)
  minX : ℤ
  maxX : ℤ
  minY : ℤ
  maxY : ℤ

/-- Push every in-bounds, unvisited, paper-classified candidate in order:
mark it visited and place it on the stack. -/
def pushNeighbors (paper : ℤ → ℤ → Bool) (sW sH : ℤ) : BfsState → List (ℤ × ℤ) → BfsState
  | s, [] => s
  | s, q :: cand =>
    pushNeighbors paper sW sH
      (if 0 ≤ q.1 ∧ q.1 < sW ∧ 0 ≤ q.2 ∧ q.2 < sH ∧ q ∉ s.visited ∧ paper q.1 q.2 then
        { s with visited := insert q s.visited, stack := q :: s.stack }
      else s) cand

/-- The downsampled cell domain as a finite set. -/
def gridCells (sW sH : ℤ) : Finset (ℤ × ℤ) :=
  Finset.Ico 0 sW ×ˢ Finset.Ico 0 sH

/-- The flood-fill loop invariant: stack cells are in the grid and visited,
the running bounding box stays inside the grid, every visited cell is on the
stack or inside the bounding box, and every visited cell off the stack has
all its in-grid neighbors visited. -/
def bfsInv (sW sH : ℤ) (s : BfsState) : Prop :=
  (∀ q ∈ s.stack, q ∈ gridCells sW sH ∧ q ∈ s.visited) ∧
  (0 ≤ s.minX ∧ s.maxX < sW ∧ 0 ≤ s.minY ∧ s.maxY < sH) ∧
  (∀ q ∈ s.visited, q ∈ s.stack ∨
    (s.minX ≤ q.1 ∧ q.1 ≤ s.maxX ∧ s.minY ≤ q.2 ∧ q.2 ≤ s.maxY)) ∧
  (∀ q ∈ s.visited, q ∈ s.stack ∨
    ∀ r ∈ neighborsOf q.1 q.2, r ∈ gridCells sW sH → r ∈ s.visited)

/-- One flood-fill iteration body for the popped cell `c`: extend the
bounding box and push the eligible neighbors. -/
def bfsStep (paper : ℤ → ℤ → Bool) (sW sH : ℤ) (c : ℤ × ℤ) (s : BfsState) : BfsState :=
  let s1 := { s with minX := min s.minX c.1, maxX := max s.maxX c.1,
                     minY := min s.minY c.2, maxY := max s.maxY c.2 }
  pushNeighbors paper sW sH s1 (neighborsOf c.1 c.2)

/-- The fuel-bounded flood-fill loop: pop the top of the stack and process it
until the stack is empty or the fuel runs out. -/
def bfsRun (paper : ℤ → ℤ → Bool) (sW sH : ℤ) : ℕ → BfsState → BfsState
  | 0, s => s
  | fuel + 1, s =>
    match s.stack with
    | [] => s
    | c :: rest => bfsRun paper sW sH fuel (bfsStep paper sW sH c { s with stack := rest })

/-- Scan state of the outer double loop: visited cells and the components
accepted so far. -/
structure DetectState where
  visited : Finset (ℤ × ℤ)
  components : List Rect

/-- Outer-loop body at downsampled cell `c`: skip visited cells, mark ink
cells, and otherwise flood-fill the white region, keeping its source-space
bounding box when the geometric filters accept it. -/
def handleCell (paper : ℤ → ℤ → Bool) (sW sH : ℤ) (scale : ℚ) (st : DetectState)
    (c : ℤ × ℤ) : DetectState :=
  if c ∈ st.visited then st
  else if ¬ paper c.1 c.2 then { st with visited := insert c st.visited }
  else
    let s0 : BfsState :=
      { visited := insert c st.visited, stack := [c],
        minX := c.1, maxX := c.1, minY := c.2, maxY := c.2 }
    let s1 := bfsRun paper sW sH (sW.toNat * sH.toNat + 1) s0
    let w := s1.maxX - s1.minX + 1
    let h := s1.maxY - s1.minY + 1
    let aspect : ℚ := (w : ℚ) / (h : ℚ)
    let accept := (6/10 < aspect ∧ aspect < 5/2) ∧
      ((sW : ℚ) * (3/100) < (w : ℚ) ∧ (sH : ℚ) * (3/100) < (h : ℚ)) ∧
      ((w : ℚ) < (sW : ℚ) * (25/100))
    { visited := s1.visited,
      components :=
        if accept then
          st.components ++
            [{ x := ((⌊(s1.minX : ℚ) / scale⌋ : ℤ) : ℚ),
               y := ((⌊(s1.minY : ℚ) / scale⌋ : ℤ) : ℚ),
               w := ((⌊(w : ℚ) / scale⌋ : ℤ) : ℚ),
               h := ((⌊(h : ℚ) / scale⌋ : ℤ) : ℚ) }]
        else st.components }

/-- The downsampled cells in the outer loop's row-major scan order. -/
def cellScan (sW sH : ℤ) : List (ℤ × ℤ) :=
  (List.range sH.toNat).flatMap (fun (y : ℕ) =>
    (List.range sW.toNat).map (fun (x : ℕ) => ((x : ℤ), (y : ℤ))))

/-- The paper test of a downsampled cell, reading the source buffer through
the nearest-neighbor index mapping of the code. -/
def paperAt (data : ℤ → Bool) (width : ℕ) (scale : ℚ) (x y : ℤ) : Bool :=
  data (⌊(y : ℚ) / scale⌋ * (width : ℤ) + ⌊(x : ℚ) / scale⌋)

/-- Connected white-component detection over the binary classification buffer
(`data i = true` means pixel `i` is paper). -/
def findWhiteComponents (data : ℤ → Bool) (width height : ℕ) : List Rect :=
  let scale : ℚ := 300 / (width : ℚ)
  let sW : ℤ := ⌊(width : ℚ) * scale⌋
  let sH : ℤ := ⌊(height : ℚ) * scale⌋
  let paper := paperAt data width scale
  ((cellScan sW sH).foldl (handleCell paper sW sH scale) { visited := ∅, components := [] }).components

/-! ### Shared detection and the two interfaces -/

/-- Ticket detection from the binary buffer: component detection followed by
row clustering and ticket chunking. -/
def detectTicketsInImage (data : ℤ → Bool) (width height : ℕ) : List TicketCandidate :=
  detectTicketsFromComponents (findWhiteComponents data width height)

/-- The fast validation interface (overlay rendering omitted): reports
whether any ticket was detected and how many. -/
def validateTicketImage (data : ℤ → Bool) (width height : ℕ) : ValidationResult :=
  let tickets := detectTicketsInImage data width height
  if tickets.length > 0 then
    { isValid := true,
      message := toString tickets.length ++ " Schein(e) erkannt.",
      ticketCount := tickets.length }
  else
    { isValid := false,
      message := "Kein Schein erkannt. Bitte näher rangehen oder Licht verbessern.",
      ticketCount := 0 }

/-- The full analysis interface.  The external recognizer call is the single
suspension point: `ocr = none` models a call that does not resolve within the
60-second bound, which the code turns into the thrown timeout error before
any result is assembled; `ocr = some words` models a successful response. -/
def analyzeTicketImage (data : ℤ → Bool) (width height : ℕ) (ink : Rect → Bool)
    (ocr : Option (List DetectedWord)) (placeholders : ℕ → String) :
    Except String (List ScanResult) :=
  let tickets := detectTicketsInImage data width height
  match ocr with
  | none => Except.error "OCR Timeout"
  | some words =>
    Except.ok (analyzeDetectedTickets (width : ℚ) (height : ℚ) ink tickets words placeholders)

/-! ### Well-formedness of a result grid -/

/-- A returned grid is well formed when it has exactly three rows of six
entries each and every entry is either the blank marker 0 or a printed number
in 1..99. -/
def gridOK (g : List (List ℕ)) : Prop :=
  g.length = 3 ∧ ∀ row ∈ g, row.length = 6 ∧ ∀ v ∈ row, v = 0 ∨ (1 ≤ v ∧ v ≤ 99)

/-! ### Concrete test inputs used by witnesses and counterexamples -/

/-- Three one-cell rows whose cell positions trigger a double reuse in the
column interpolation. -/
def rowsReuse : List RowCluster :=
  [ { y := 0, h := 100, cells := [{ x := 0, y := 0, w := 100, h := 100 }] },
    { y := 100, h := 100, cells := [{ x := 59, y := 100, w := 100, h := 100 }] },
    { y := 200, h := 100, cells := [{ x := 90, y := 200, w := 100, h := 100 }] } ]

/-- Three vertically stacked touching squares, enough for one ticket. -/
def compsStack : List Rect :=
  [ { x := 0, y := 0, w := 100, h := 100 },
    { x := 0, y := 100, w := 100, h := 100 },
    { x := 0, y := 200, w := 100, h := 100 } ]

/-- The single ticket candidate that `compsStack` chunks into. -/
def ticketStack : TicketCandidate :=
  { rows := [ { y := 0, h := 100, cells := [{ x := 0, y := 0, w := 100, h := 100 }] },
              { y := 100, h := 100, cells := [{ x := 0, y := 100, w := 100, h := 100 }] },
              { y := 200, h := 100, cells := [{ x := 0, y := 200, w := 100, h := 100 }] } ] }

/-- A 3x8 solid ink block inside a 20x20 crop: exactly 6 dense-ink pixels,
a 1.5 percent fraction. -/
def crop15 : ℤ → ℤ → Bool := fun x y => decide (5 ≤ x ∧ x ≤ 12 ∧ 5 ≤ y ∧ y ≤ 7)

/-- A 3x4 solid ink block inside a 20x20 crop: exactly 2 dense-ink pixels,
a 0.5 percent fraction. -/
def crop05 : ℤ → ℤ → Bool := fun x y => decide (5 ≤ x ∧ x ≤ 8 ∧ 5 ≤ y ∧ y ≤ 7)

/-- The all-ink image. -/
def allInk : ℤ → ℤ → Bool := fun _ _ => true

/-- A one-ticket candidate with one detected cell per row. -/
def ticketOne : TicketCandidate :=
  { rows := [ { y := 0, h := 100, cells := [{ x := 0, y := 0, w := 100, h := 100 }] },
              { y := 100, h := 100, cells := [{ x := 0, y := 100, w := 100, h := 100 }] },
              { y := 200, h := 100, cells := [{ x := 0, y := 200, w := 100, h := 100 }] } ] }

/-- A recognized word reading `I6` centered in the first number sprite slot. -/
def wordI6 : DetectedWord :=
  { text := "I6", bbox := { x := 410, y := 410, w := 80, h := 80 }, confidence := 90 }

/-- The number mapping of cell `(0, 0, 0)`. -/
def itemCell00 : MappedCell :=
  { ticketIndex := 0, rowIndex := 0, colIndex := 0,
    spriteRect := numberSpriteRect 0 0 0,
    originalRect := { x := 0, y := 0, w := 100, h := 100 }, kind := .number }

/-- An identifier mapping for ticket 0. -/
def itemId0 : MappedCell :=
  { ticketIndex := 0, rowIndex := 2, colIndex := 6,
    spriteRect := { x := 3760, y := 1520, w := 480, h := 160 },
    originalRect := { x := 0, y := 0, w := 0, h := 0 }, kind := .id }

/-- A recognized word reading `SCHEIN 160 / 400` centered in the identifier
slot of ticket 0. -/
def wordSchein : DetectedWord :=
  { text := "SCHEIN 160 / 400", bbox := { x := 3800, y := 1560, w := 100, h := 50 },
    confidence := 80 }

/-! ## Claim theorems -/

/-- C1, counterexample: the claim predicts that candidate text `l6`
normalizes to 16 and that `l60` normalizes to 160 and is rejected, leaving
the cell 0.  In the code the substitution runs on the uppercased text, where
the lowercase-only rule `l -> 1` never fires: `l6` normalizes to 6, and `l60`
normalizes to 60, which is in range and is accepted rather than leaving the
cell 0. -/
theorem c1_counterexample :
    normalizedInt "l6" = some 6 ∧ acceptedCellValue "l6" = some 6 ∧
    acceptedCellValue "l6" ≠ some 16 ∧
    normalizedInt "l60" = some 60 ∧ acceptedCellValue "l60" = some 60 ∧
    acceptedCellValue "l60" ≠ none := by
  decide

/-- C1 (amended): for a numeric cell whose selected best candidate passes the
height and stray-text checks, the post-processor normalizes the candidate
text (uppercase, then the digit-wise substitutions `I->1, O->0, B->8, S->5,
Z->7, A->4, G->6, T->7`; the lowercase `l` rule is inert after uppercasing),
strips the remaining non-digits, parses, and sets the cell to the parsed
value iff it lies in 1..99, leaving the cell 0 otherwise.  In particular `I6`
yields 16 (accepted) and `I60` yields 160 (rejected), while `l6` yields 6 and
`l60` yields 60 (both accepted). -/
theorem c1_cell_normalization :
    (∀ (words : List DetectedWord) (g : List (List ℕ)) (item : MappedCell)
        (best : DetectedWord) (rest : List DetectedWord),
      stableSort (fun a b => decide (b.confidence ≤ a.confidence))
          (words.filter (fun w => centerInRect w item.spriteRect)) = best :: rest →
      ¬ best.bbox.h / item.spriteRect.h < 33/100 →
      strayTextReject (trimString best.text) = false →
      processNumberItem words g item =
        (match acceptedCellValue (trimString best.text) with
         | some n => setCell g item.rowIndex item.colIndex n
         | none => g)) ∧
    (∀ s n, acceptedCellValue s = some n ↔ normalizedInt s = some n ∧ 1 ≤ n ∧ n ≤ 99) ∧
    normalizedInt "I6" = some 16 ∧ acceptedCellValue "I6" = some 16 ∧
    normalizedInt "I60" = some 160 ∧ acceptedCellValue "I60" = none ∧
    acceptedCellValue "l6" = some 6 ∧ acceptedCellValue "l60" = some 60 := by
  refine ⟨?_, ?_, by decide, by decide, by decide, by decide, by decide, by decide⟩
  · intro words g item best rest hsort hh hs
    simp only [processNumberItem]
    rw [hsort]
    simp [hh, hs]
  · intro s n
    unfold acceptedCellValue
    cases hni : normalizedInt s with
    | none => simp
    | some m =>
      by_cases hb : 0 < m ∧ m < 100
      · simp only [if_pos hb]
        constructor
        · intro h
          have hmn := Option.some.inj h
          subst hmn
          exact ⟨rfl, by omega⟩
        · exact fun h => h.1
      · simp only [if_neg hb]
        constructor
        · intro h
          simp at h
        · rintro ⟨hmn, h1, h2⟩
          have := Option.some.inj hmn
          omega

/-- C1, witness: a concrete word `I6` in the first number slot passes all
checks and sets the cell to 16. -/
theorem c1_cell_normalization_witness :
    (stableSort (fun a b => decide (b.confidence ≤ a.confidence))
        ([wordI6].filter (fun w => centerInRect w itemCell00.spriteRect)) = wordI6 :: []) ∧
    (¬ wordI6.bbox.h / itemCell00.spriteRect.h < 33/100) ∧
    strayTextReject (trimString wordI6.text) = false ∧
    processNumberItem [wordI6] initialGrid itemCell00 = setCell initialGrid 0 0 16 := by
  refine ⟨by with_unfolding_all rfl, of_decide_eq_true (by with_unfolding_all rfl),
    by decide, ?_⟩
  have h := c1_cell_normalization.1 [wordI6] initialGrid itemCell00 wordI6 []
    (by with_unfolding_all rfl) (of_decide_eq_true (by with_unfolding_all rfl)) (by decide)
  rw [h]
  decide

/-- C2: when the external recognition call does not resolve within the
60-second bound (modelled by `ocr = none`), the whole analysis fails with the
timeout error and returns no ticket results at all. -/
theorem c2_timeout_no_results (data : ℤ → Bool) (width height : ℕ) (ink : Rect → Bool)
    (placeholders : ℕ → String) :
    analyzeTicketImage data width height ink none placeholders = Except.error "OCR Timeout" :=
  rfl

/-- C4, counterexample: on the three one-cell rows of `rowsReuse` (which
satisfy the claim's hypothesis), re-running the column interpolation on its
own output yields different column centers and different cells, so the
interpolation is not idempotent. -/
theorem c4_counterexample :
    rowsReuse.length = 3 ∧ (∀ r ∈ rowsReuse, r.cells ≠ []) ∧
    columnsOf (rowsOfInterp (interpolateGrid rowsReuse)) ≠ columnsOf rowsReuse ∧
    interpolateGrid (rowsOfInterp (interpolateGrid rowsReuse)) ≠ interpolateGrid rowsReuse :=
  of_decide_eq_true (by with_unfolding_all rfl)

/-- C4 (amended): for every ticket candidate whose three rows each contain at
least one detected cell, column interpolation yields exactly three rows of
exactly six cells each (synthesizing evenly spaced columns when fewer than
six clusters were found); re-running the interpolation on its own output can
however change the columns, so it is not idempotent. -/
theorem c4_interpolation_six_cells (rows : List RowCluster) (h3 : rows.length = 3)
    (_hne : ∀ r ∈ rows, r.cells ≠ []) :
    (interpolateGrid rows).length = 3 ∧ ∀ g ∈ interpolateGrid rows, g.cells.length = 6 := by
  unfold interpolateGrid
  refine ⟨by simp [h3], ?_⟩
  intro g hg
  simp only [List.mem_map] at hg
  obtain ⟨row, _, rfl⟩ := hg
  simp

/-- C4, witness: the six-cell conclusion holds at the concrete rows of the
counterexample input. -/
theorem c4_interpolation_six_cells_witness :
    rowsReuse.length = 3 ∧ (∀ r ∈ rowsReuse, r.cells ≠ []) ∧
    ((interpolateGrid rowsReuse).length = 3 ∧
      ∀ g ∈ interpolateGrid rowsReuse, g.cells.length = 6) :=
  ⟨by decide, by decide, c4_interpolation_six_cells rowsReuse (by decide) (by decide)⟩

/-- C6, counterexample: the claim describes the fallback as keeping only
digits and whitespace; on identifier text `1x2 3` that reading yields
`12/3`, while the code replaces each other character by a space and yields
`2/3`. -/
theorem c6_counterexample :
    reconstructId "1x2 3" = some "2/3" ∧
    reconstructIdSpec "1x2 3" = some "12/3" ∧
    reconstructId "1x2 3" ≠ reconstructIdSpec "1x2 3" := by
  decide

/-- C6 (amended): identifier reconstruction strips runs of two or more
letters, normalizes the characters `| \ I : .` to `/`, and first tries the
pattern of one-to-five digits, a slash, and one-to-five digits, returning
exactly `left/right` on a match; otherwise it replaces every character other
than a digit or whitespace by a space, splits on whitespace, and joins the
last two tokens when at least two remain.  `SCHEIN 160 / 400` yields
`160/400`, and slashless `160 400` also yields `160/400`. -/
theorem c6_identifier_reconstruction :
    (∀ s : String,
      reconstructId s =
        (match slashMatch (normalizeSlashChars (stripLetterRuns s.toList)) with
         | some (a, b) => some (a ++ "/" ++ b)
         | none => fallbackLastTwo (normalizeSlashChars (stripLetterRuns s.toList)))) ∧
    (∀ (map : List MappedCell) (words : List DetectedWord) (ph : String) (tIdx : ℕ)
        (idItem : MappedCell) (w : DetectedWord) (ws : List DetectedWord),
      map.find? (fun m => m.ticketIndex = tIdx ∧ m.kind = CellKind.id) = some idItem →
      words.filter (fun w2 => centerInRect w2 idItem.spriteRect) = w :: ws →
      (buildResult map words ph tIdx).ticketId =
        (reconstructId (joinSpace ((w :: ws).map (fun v => v.text)))).getD ph) ∧
    reconstructId "SCHEIN 160 / 400" = some "160/400" ∧
    reconstructId "160 400" = some "160/400" := by
  refine ⟨fun s => rfl, ?_, by decide, by decide⟩
  intro map words ph tIdx idItem w ws hfind hfilter
  unfold buildResult
  rw [hfind]
  dsimp only
  rw [hfilter]
  cases hrec : reconstructId (joinSpace ((w :: ws).map (fun v => v.text))) <;>
    simp [hrec]

/-- C6, witness: the concrete identifier mapping and word produce the ticket
identifier `160/400`. -/
theorem c6_identifier_reconstruction_witness :
    ([itemId0].find? (fun m => m.ticketIndex = 0 ∧ m.kind = CellKind.id) = some itemId0) ∧
    ([wordSchein].filter (fun w2 => centerInRect w2 itemId0.spriteRect) = wordSchein :: []) ∧
    (buildResult [itemId0] [wordSchein] "ID-7" 0).ticketId = "160/400" := by
  refine ⟨by decide, by with_unfolding_all rfl, ?_⟩
  have h := c6_identifier_reconstruction.2.1 [itemId0] [wordSchein] "ID-7" 0 itemId0
    wordSchein [] (by decide) (by with_unfolding_all rfl)
  rw [h]
  decide

/-- C7, counterexample: the claim asserts that every pixel inside a protected
rectangle is copied unchanged in every pass; a protected border pixel
contradicts this, since border pixels are never evaluated and come out Paper
even when the input has ink there. -/
theorem c7_counterexample :
    pixelInRect 0 0 (Rect.mk 0 0 3 3) = true ∧ allInk 0 0 = true ∧
    erodePass allInk 3 3 [Rect.mk 0 0 3 3] 0 0 0 = false :=
  of_decide_eq_true (by with_unfolding_all rfl)

/-- C7 (amended): in every cleaning pass (erosion and despeckle alike), every
interior pixel lying inside one of the protected rectangles is copied
unchanged from the pass's input, while every border pixel (the outermost
one-pixel ring, protected or not) is Paper in the pass's output. -/
theorem c7_clean_pass_frame (img : ℤ → ℤ → Bool) (w h : ℤ) (prot : List Rect)
    (iter : ℕ) (x y : ℤ) :
    ((1 ≤ y ∧ y < h - 1 ∧ 1 ≤ x ∧ x < w - 1) →
      prot.any (pixelInRect x y) = true →
      erodePass img w h prot iter x y = img x y) ∧
    (¬ (1 ≤ y ∧ y < h - 1 ∧ 1 ≤ x ∧ x < w - 1) →
      erodePass img w h prot iter x y = false) := by
  constructor
  · intro hin hprot
    simp [erodePass, hin, hprot]
  · intro hout
    simp [erodePass, hout]

/-- C7, witness: at a concrete protected interior pixel the pass copies the
input, and at a concrete border pixel the output is Paper. -/
theorem c7_clean_pass_frame_witness :
    ((1:ℤ) ≤ 1 ∧ (1:ℤ) < 4 - 1 ∧ (1:ℤ) ≤ 1 ∧ (1:ℤ) < 4 - 1) ∧
    ([Rect.mk 1 1 1 1].any (pixelInRect 1 1) = true) ∧
    erodePass allInk 4 4 [Rect.mk 1 1 1 1] 1 1 1 = allInk 1 1 ∧
    (¬ ((1:ℤ) ≤ 0 ∧ (0:ℤ) < 4 - 1 ∧ (1:ℤ) ≤ 0 ∧ (0:ℤ) < 4 - 1)) ∧
    erodePass allInk 4 4 [Rect.mk 1 1 1 1] 1 0 0 = false :=
  ⟨by decide, by with_unfolding_all rfl,
   (c7_clean_pass_frame allInk 4 4 [Rect.mk 1 1 1 1] 1 1 1).1 (by decide)
     (by with_unfolding_all rfl),
   by decide,
   (c7_clean_pass_frame allInk 4 4 [Rect.mk 1 1 1 1] 1 0 0).2 (by decide)⟩

/-- Dropping `n` elements and seeing `x :: t` pins down the take of one more
element and the next drop. -/
theorem take_succ_of_drop_cons {α : Type _} (l : List α) (n : ℕ) (x : α) (t : List α)
    (h : l.drop n = x :: t) :
    l.take n ++ [x] = l.take (n + 1) ∧ l.drop (n + 1) = t := by
  have hx : l[n]? = some x := by
    rw [← List.head?_drop, h]
    rfl
  constructor
  · rw [List.take_succ, hx]
    rfl
  · have : l.drop (n + 1) = (l.drop n).drop 1 := by
      rw [List.drop_drop]
    rw [this, h]
    rfl

/-- Every ticket produced by flushing a contiguous run `cur` of rows of `V`
has exactly three rows, again contiguous in `V`. -/
theorem flushChunks_prop (V : List RowCluster) (cur : List RowCluster) (j : ℕ)
    (hcur : cur = (V.drop j).take cur.length) :
    ∀ t ∈ flushChunks cur, t.rows.length = 3 ∧ ∃ i, t.rows = (V.drop i).take 3 := by
  intro t ht
  unfold flushChunks at ht
  simp only [List.mem_map, List.mem_range] at ht
  obtain ⟨k, hk, rfl⟩ := ht
  have h3k : 3 * k + 3 ≤ cur.length := by omega
  constructor
  · dsimp only
    rw [List.length_take, List.length_drop]
    exact min_eq_left (by omega)
  · refine ⟨j + 3 * k, ?_⟩
    dsimp only
    conv_lhs => rw [hcur]
    rw [List.drop_take, List.drop_drop, List.take_take]
    congr 1
    exact min_eq_left (by omega)

/-- Invariant of the chunking loop: when the accumulator is a contiguous
slice of `V` followed immediately by the remaining input, every emitted
ticket has exactly three rows contiguous in `V`. -/
theorem chunkRows_prop (V : List RowCluster) (rest : List RowCluster) :
    ∀ (cur : List RowCluster) (out : List TicketCandidate) (j : ℕ),
      cur = (V.drop j).take cur.length →
      rest = V.drop (j + cur.length) →
      (∀ t ∈ out, t.rows.length = 3 ∧ ∃ i, t.rows = (V.drop i).take 3) →
      ∀ t ∈ chunkRows rest cur out,
        t.rows.length = 3 ∧ ∃ i, t.rows = (V.drop i).take 3 := by
  induction rest with
  | nil =>
    intro cur out j hcur _ hout t ht
    unfold chunkRows at ht
    rw [List.mem_append] at ht
    rcases ht with ht | ht
    · exact hout t ht
    · exact flushChunks_prop V cur j hcur t ht
  | cons row rest2 ih =>
    intro cur out j hcur hrest hout t ht
    have hdrop : V.drop (j + cur.length) = row :: rest2 := hrest.symm
    unfold chunkRows at ht
    cases hlast : cur.getLast? with
    | none =>
      rw [hlast] at ht
      dsimp only at ht
      have hcurnil : cur = [] := List.getLast?_eq_none_iff.mp hlast
      subst hcurnil
      simp only [List.length_nil, Nat.add_zero] at hdrop
      refine ih [row] out j ?_ ?_ hout t ht
      · rw [hdrop]
        rfl
      · have h2 := (take_succ_of_drop_cons V j row rest2 hdrop).2
        simpa using h2.symm
    | some prev =>
      rw [hlast] at ht
      dsimp only at ht
      by_cases hgap : row.y - (prev.y + prev.h) < row.h * (1/5)
      · rw [if_pos hgap] at ht
        have hdc : (V.drop j).drop cur.length = row :: rest2 := by
          rw [List.drop_drop]
          exact hdrop
        obtain ⟨htake, hd2⟩ := take_succ_of_drop_cons (V.drop j) cur.length row rest2 hdc
        have hlen1 : (cur ++ [row]).length = cur.length + 1 := by simp
        refine ih (cur ++ [row]) out j ?_ ?_ hout t ht
        · rw [hlen1]
          conv_lhs => rw [hcur]
          exact htake
        · rw [hlen1, ← List.drop_drop]
          exact hd2.symm
      · rw [if_neg hgap] at ht
        refine ih [row] (out ++ flushChunks cur) (j + cur.length) ?_ ?_ ?_ t ht
        · rw [hdrop]
          rfl
        · have h2 := (take_succ_of_drop_cons V (j + cur.length) row rest2 hdrop).2
          simpa using h2.symm
        · intro t2 ht2
          rw [List.mem_append] at ht2
          rcases ht2 with ht2 | ht2
          · exact hout t2 ht2
          · exact flushChunks_prop V cur j hcur t2 ht2

/-- C3: ticket chunking emits only candidates made of exactly three rows that
are consecutive in the y-sorted valid row ordering; an accumulated run is
split into groups of three and any remainder is dropped, so nothing else is
ever emitted. -/
theorem c3_ticket_chunks (comps : List Rect) :
    ∀ t ∈ detectTicketsFromComponents comps,
      t.rows.length = 3 ∧ ∃ i, t.rows = ((validRowsOf comps).drop i).take 3 := by
  intro t ht
  unfold detectTicketsFromComponents at ht
  refine chunkRows_prop (validRowsOf comps) (validRowsOf comps) [] [] 0 ?_ ?_ ?_ t ht
  · rfl
  · rfl
  · intro t2 ht2
    cases ht2

/-- C3, witness: the three stacked squares of `compsStack` chunk into one
ticket whose rows are the three valid rows. -/
theorem c3_ticket_chunks_witness :
    (ticketStack ∈ detectTicketsFromComponents compsStack) ∧
    (ticketStack.rows.length = 3 ∧
      ∃ i, ticketStack.rows = ((validRowsOf compsStack).drop i).take 3) := by
  have hmem : ticketStack ∈ detectTicketsFromComponents compsStack :=
    of_decide_eq_true (by with_unfolding_all rfl)
  exact ⟨hmem, c3_ticket_chunks compsStack ticketStack hmem⟩

/-- Accepted cell values always lie in the printable range 1..99. -/
theorem acceptedCellValue_bounds {s : String} {n : ℕ} (h : acceptedCellValue s = some n) :
    1 ≤ n ∧ n ≤ 99 := by
  unfold acceptedCellValue at h
  cases hni : normalizedInt s with
  | none => rw [hni] at h; cases h
  | some m =>
    rw [hni] at h
    dsimp only at h
    by_cases hb : 0 < m ∧ m < 100
    · rw [if_pos hb] at h
      have := Option.some.inj h
      omega
    · rw [if_neg hb] at h
      cases h

/-- The all-zero starting grid is well formed. -/
theorem gridOK_initialGrid : gridOK initialGrid := by
  unfold gridOK initialGrid
  decide

/-- Setting one cell to a value in 1..99 preserves grid well-formedness. -/
theorem gridOK_setCell {g : List (List ℕ)} (hg : gridOK g) {r c v : ℕ}
    (hv : 1 ≤ v ∧ v ≤ 99) : gridOK (setCell g r c v) := by
  obtain ⟨hlen, hrows⟩ := hg
  unfold setCell
  rcases Nat.lt_or_ge r g.length with hr | hr
  · have hmem : g.getD r [] ∈ g := by
      rw [List.getD_eq_getElem?_getD, List.getElem?_eq_getElem hr, Option.getD_some]
      exact List.getElem_mem hr
    obtain ⟨hlen6, hvals⟩ := hrows _ hmem
    refine ⟨by simpa using hlen, ?_⟩
    intro row hrow
    rcases List.mem_or_eq_of_mem_set hrow with hmem2 | rfl
    · exact hrows row hmem2
    · refine ⟨by simpa using hlen6, ?_⟩
      intro x hx
      rcases List.mem_or_eq_of_mem_set hx with hmem3 | rfl
      · exact hvals x hmem3
      · right
        exact hv
  · rw [List.set_eq_of_length_le hr]
    exact ⟨hlen, hrows⟩

/-- Processing one number mapping preserves grid well-formedness. -/
theorem gridOK_processNumberItem (words : List DetectedWord) {g : List (List ℕ)}
    (hg : gridOK g) (item : MappedCell) : gridOK (processNumberItem words g item) := by
  unfold processNumberItem
  dsimp only
  split
  · exact hg
  · split
    · exact hg
    · split
      · exact hg
      · split
        · rename_i n hval
          exact gridOK_setCell hg (acceptedCellValue_bounds hval)
        · exact hg

/-- Folding the number mappings over a well-formed grid keeps it well formed. -/
theorem gridOK_foldl (words : List DetectedWord) (items : List MappedCell)
    {g : List (List ℕ)} (hg : gridOK g) :
    gridOK (items.foldl (processNumberItem words) g) := by
  induction items generalizing g with
  | nil => exact hg
  | cons item items ih => exact ih (gridOK_processNumberItem words hg item)

/-- C5: every ticket result returned by the full analysis has a grid of
exactly 3 rows by 6 columns in which every cell value is either 0 or an
integer in 1..99, for every detected ticket list, ink oracle, and recognizer
output. -/
theorem c5_grid_range_invariant (width height : ℚ) (ink : Rect → Bool)
    (tickets : List TicketCandidate) (words : List DetectedWord)
    (placeholders : ℕ → String) :
    ∀ res ∈ analyzeDetectedTickets width height ink tickets words placeholders,
      gridOK res.grid := by
  intro res hres
  unfold analyzeDetectedTickets postProcess at hres
  simp only [List.mem_map] at hres
  obtain ⟨t, _, rfl⟩ := hres
  unfold buildResult
  dsimp only
  exact gridOK_foldl _ _ gridOK_initialGrid

/-- C5, witness: a concrete one-ticket analysis returns a result whose grid
is well formed. -/
theorem c5_grid_range_invariant_witness :
    (ScanResult.mk "ID-1" initialGrid ∈
      analyzeDetectedTickets 1000 1000 (fun _ => true) [ticketOne] [] (fun _ => "ID-1")) ∧
    gridOK (ScanResult.mk "ID-1" initialGrid).grid := by
  have hmem : ScanResult.mk "ID-1" initialGrid ∈
      analyzeDetectedTickets 1000 1000 (fun _ => true) [ticketOne] [] (fun _ => "ID-1") :=
    of_decide_eq_true (by with_unfolding_all rfl)
  exact ⟨hmem, c5_grid_range_invariant 1000 1000 (fun _ => true) [ticketOne] []
    (fun _ => "ID-1") _ hmem⟩

/-- C8: the ink presence test classifies a cropped region as containing
content iff the fraction of dense-ink pixels strictly exceeds one percent of
the region area; a concrete crop with a dense fraction of exactly 1.5 percent
is classified as content and one with 0.5 percent is not. -/
theorem c8_ink_threshold :
    (∀ (img : ℤ → ℤ → Bool) (w h : ℤ),
      hasInk img w h = true ↔
        (denseInkCount img w h : ℚ) / ((w : ℚ) * (h : ℚ)) > 1/100) ∧
    (denseInkCount crop15 20 20 : ℚ) / ((20 : ℚ) * 20) = 3/200 ∧
    hasInk crop15 20 20 = true ∧
    (denseInkCount crop05 20 20 : ℚ) / ((20 : ℚ) * 20) = 1/200 ∧
    hasInk crop05 20 20 = false := by
  refine ⟨fun img w h => by simp [hasInk], ?_, by with_unfolding_all rfl, ?_,
    by with_unfolding_all rfl⟩
  · rw [show denseInkCount crop15 20 20 = 6 from by decide]
    norm_num
  · rw [show denseInkCount crop05 20 20 = 2 from by decide]
    norm_num

/-- The fields of a number sprite-map entry produced by `numberEntry`. -/
theorem numberEntry_some {ink : Rect → Bool} {tIdx : ℕ} {irows : List InterpRow}
    {r c : ℕ} {m : MappedCell} (h : numberEntry ink tIdx irows r c = some m) :
    m.ticketIndex = tIdx ∧ m.rowIndex = r ∧ m.colIndex = c ∧
    m.kind = CellKind.number ∧ m.spriteRect = numberSpriteRect tIdx r c := by
  unfold numberEntry at h
  split at h
  · cases h
  · split at h
    · have hm := Option.some.inj h
      subst hm
      exact ⟨rfl, rfl, rfl, rfl, rfl⟩
    · cases h

/-- An identifier sprite-map entry always has kind `id`. -/
theorem idEntry_some {width height : ℚ} {tIdx : ℕ} {irows : List InterpRow}
    {m : MappedCell} (h : idEntry width height tIdx irows = some m) :
    m.ticketIndex = tIdx ∧ m.kind = CellKind.id := by
  unfold idEntry at h
  split at h
  · cases h
  · dsimp only at h
    split at h
    · have hm := Option.some.inj h
      subst hm
      exact ⟨rfl, rfl⟩
    · cases h

/-- A flattened list is pairwise related when each fragment is and fragments
are pairwise cross-related. -/
theorem pairwise_flatMapAux {α β : Type _} {R : β → β → Prop} {f : α → List β} :
    ∀ (l : List α), (∀ a ∈ l, (f a).Pairwise R) →
      l.Pairwise (fun a b => ∀ x ∈ f a, ∀ y ∈ f b, R x y) →
      (l.flatMap f).Pairwise R := by
  intro l
  induction l with
  | nil => simp
  | cons a l ih =>
    intro h1 h2
    obtain ⟨hcross, htail⟩ := List.pairwise_cons.mp h2
    rw [List.flatMap_cons, List.pairwise_append]
    refine ⟨h1 a (List.mem_cons_self a l), ih (fun b hb => h1 b (List.mem_cons_of_mem a hb)) htail, ?_⟩
    intro x hx y hy
    rw [List.mem_flatMap] at hy
    obtain ⟨b, hb, hyb⟩ := hy
    exact hcross b hb x hx y hyb

/-- A filterMapped list is pairwise related when the sources are pairwise
related on their produced values. -/
theorem pairwise_filterMapAux {α β : Type _} {R : β → β → Prop} {f : α → Option β} :
    ∀ (l : List α),
      l.Pairwise (fun a b => ∀ x, f a = some x → ∀ y, f b = some y → R x y) →
      (l.filterMap f).Pairwise R := by
  intro l
  induction l with
  | nil => simp
  | cons a l ih =>
    intro h
    obtain ⟨ha, hl⟩ := List.pairwise_cons.mp h
    rw [List.filterMap_cons]
    cases hfa : f a with
    | none => exact ih hl
    | some x =>
      rw [List.pairwise_cons]
      refine ⟨?_, ih hl⟩
      intro y hy
      rw [List.mem_filterMap] at hy
      obtain ⟨b, hb, hyb⟩ := hy
      exact ha b hb x hfa y hyb

/-- The positions in an enumerated list are strictly increasing. -/
theorem enum_pairwise_fst {α : Type _} (l : List α) :
    l.enum.Pairwise (fun p q => p.1 < q.1) := by
  have h := List.pairwise_lt_range l.length
  rw [← List.enum_map_fst l] at h
  exact List.pairwise_map.mp h

/-- Membership in one ticket's block of sprite-map entries forces the entry's
ticket index, and number entries carry their slot's sprite rectangle. -/
theorem mem_ticketBlock {width height : ℚ} {ink : Rect → Bool} {tIdx : ℕ}
    {irows : List InterpRow} {m : MappedCell}
    (hm : m ∈ ((List.range 3).flatMap (fun r =>
        (List.range 6).filterMap (fun c => numberEntry ink tIdx irows r c)))
      ++ (idEntry width height tIdx irows).toList) :
    m.ticketIndex = tIdx ∧
    (m.kind = CellKind.number →
      m.rowIndex < 3 ∧ m.colIndex < 6 ∧
      m.spriteRect = numberSpriteRect m.ticketIndex m.rowIndex m.colIndex) := by
  rw [List.mem_append] at hm
  rcases hm with hm | hm
  · rw [List.mem_flatMap] at hm
    obtain ⟨r, hr, hm⟩ := hm
    rw [List.mem_filterMap] at hm
    obtain ⟨c, hc, hentry⟩ := hm
    rw [List.mem_range] at hr
    rw [List.mem_range] at hc
    obtain ⟨h1, h2, h3, _, h5⟩ := numberEntry_some hentry
    subst h1
    subst h2
    subst h3
    exact ⟨rfl, fun _ => ⟨hr, hc, h5⟩⟩
  · rw [Option.mem_toList, Option.mem_def] at hm
    obtain ⟨h1, h2⟩ := idEntry_some hm
    subst h1
    refine ⟨rfl, fun hk => ?_⟩
    rw [h2] at hk
    cases hk

/-- A number entry of the sprite map sits in a valid slot and carries that
slot's sprite rectangle. -/
theorem mem_compositeMap_shape {width height : ℚ} {ink : Rect → Bool}
    {tickets : List TicketCandidate} {m : MappedCell}
    (hm : m ∈ generateCompositeMap width height ink tickets)
    (hk : m.kind = CellKind.number) :
    m.rowIndex < 3 ∧ m.colIndex < 6 ∧
    m.spriteRect = numberSpriteRect m.ticketIndex m.rowIndex m.colIndex := by
  unfold generateCompositeMap at hm
  rw [List.mem_flatMap] at hm
  obtain ⟨⟨tIdx, ticket⟩, _, hm⟩ := hm
  dsimp only at hm
  exact (mem_ticketBlock hm).2 hk

/-- Distinct number sprite slots have disjoint open rectangles: no point lies
strictly inside two of them. -/
theorem numberSpriteRect_disjoint {t1 r1 c1 t2 r2 c2 : ℕ}
    (hr1 : r1 < 3) (_hc1 : c1 < 6) (hr2 : r2 < 3) (_hc2 : c2 < 6)
    (hne : (t1, r1, c1) ≠ (t2, r2, c2)) (p : ℚ × ℚ) :
    ¬ (pointInRect p (numberSpriteRect t1 r1 c1) = true ∧
       pointInRect p (numberSpriteRect t2 r2 c2) = true) := by
  rintro ⟨h1, h2⟩
  simp only [pointInRect, numberSpriteRect, cellSize, spritePadding, ticketHeight,
    decide_eq_true_eq] at h1 h2
  obtain ⟨hx1, hx1w, hy1, hy1h⟩ := h1
  obtain ⟨hx2, hx2w, hy2, hy2h⟩ := h2
  norm_num at hx1 hx1w hy1 hy1h hx2 hx2w hy2 hy2h
  have hr1q : (r1 : ℚ) ≤ 2 := by exact_mod_cast Nat.lt_succ_iff.mp hr1
  have hr2q : (r2 : ℚ) ≤ 2 := by exact_mod_cast Nat.lt_succ_iff.mp hr2
  have hr1q0 : (0 : ℚ) ≤ (r1 : ℚ) := Nat.cast_nonneg r1
  have hr2q0 : (0 : ℚ) ≤ (r2 : ℚ) := Nat.cast_nonneg r2
  have hcc : c1 = c2 := by
    have ha : (c1 : ℚ) < (c2 : ℚ) + 1 := by nlinarith
    have hb : (c2 : ℚ) < (c1 : ℚ) + 1 := by nlinarith
    have ha2 : c1 < c2 + 1 := by exact_mod_cast ha
    have hb2 : c2 < c1 + 1 := by exact_mod_cast hb
    omega
  have htt : t1 = t2 := by
    have ha : (t1 : ℚ) < (t2 : ℚ) + 1 := by nlinarith
    have hb : (t2 : ℚ) < (t1 : ℚ) + 1 := by nlinarith
    have ha2 : t1 < t2 + 1 := by exact_mod_cast ha
    have hb2 : t2 < t1 + 1 := by exact_mod_cast hb
    omega
  have hrr : r1 = r2 := by
    subst htt
    have ha : (r1 : ℚ) < (r2 : ℚ) + 1 := by nlinarith
    have hb : (r2 : ℚ) < (r1 : ℚ) + 1 := by nlinarith
    have ha2 : r1 < r2 + 1 := by exact_mod_cast ha
    have hb2 : r2 < r1 + 1 := by exact_mod_cast hb
    omega
  exact hne (by rw [hcc, htt, hrr])

/-- The whole sprite map carries pairwise-distinct `(ticket, row, column)`
triples on its number entries. -/
theorem compositeMap_pairwise (width height : ℚ) (ink : Rect → Bool)
    (tickets : List TicketCandidate) :
    (generateCompositeMap width height ink tickets).Pairwise
      (fun m1 m2 => m1.kind = CellKind.number → m2.kind = CellKind.number →
        ¬(m1.ticketIndex = m2.ticketIndex ∧ m1.rowIndex = m2.rowIndex ∧
          m1.colIndex = m2.colIndex)) := by
  unfold generateCompositeMap
  apply pairwise_flatMapAux
  · rintro ⟨tIdx, ticket⟩ _
    dsimp only
    rw [List.pairwise_append]
    refine ⟨?_, ?_, ?_⟩
    · apply pairwise_flatMapAux
      · intro r _
        apply pairwise_filterMapAux
        refine List.Pairwise.imp_of_mem ?_ (List.pairwise_lt_range 6)
        intro c1 c2 _ _ hlt x hx y hy hkx hky hcon
        obtain ⟨_, _, hcx, _, _⟩ := numberEntry_some hx
        obtain ⟨_, _, hcy, _, _⟩ := numberEntry_some hy
        omega
      · refine List.Pairwise.imp_of_mem ?_ (List.pairwise_lt_range 3)
        intro r1 r2 _ _ hlt x hx y hy hkx hky hcon
        rw [List.mem_filterMap] at hx hy
        obtain ⟨cx, _, hex⟩ := hx
        obtain ⟨cy, _, hey⟩ := hy
        obtain ⟨_, hrx, _, _, _⟩ := numberEntry_some hex
        obtain ⟨_, hry, _, _, _⟩ := numberEntry_some hey
        omega
    · cases hid : idEntry width height tIdx (interpolateGrid ticket.rows) with
      | none => simp
      | some m => simp
    · intro x _ y hy hkx hky
      rw [Option.mem_toList, Option.mem_def] at hy
      obtain ⟨_, hkid⟩ := idEntry_some hy
      rw [hkid] at hky
      cases hky
  · refine List.Pairwise.imp_of_mem ?_ (enum_pairwise_fst tickets)
    rintro ⟨t1, tk1⟩ ⟨t2, tk2⟩ _ _ hlt x hx y hy hkx hky hcon
    dsimp only at hx hy hlt
    have hxi := (mem_ticketBlock hx).1
    have hyi := (mem_ticketBlock hy).1
    omega

/-- A list that is pairwise not-both-selected has at most one selected
element. -/
theorem filter_length_le_one {α : Type _} {q : α → Bool} :
    ∀ {l : List α}, l.Pairwise (fun a b => ¬(q a = true ∧ q b = true)) →
      (l.filter q).length ≤ 1 := by
  intro l
  induction l with
  | nil => simp
  | cons a l ih =>
    intro h
    obtain ⟨ha, hl⟩ := List.pairwise_cons.mp h
    rw [List.filter_cons]
    by_cases hqa : q a = true
    · rw [if_pos hqa]
      have hnil : l.filter q = [] :=
        List.filter_eq_nil_iff.mpr (fun b hb hqb => ha b hb ⟨hqa, hqb⟩)
      rw [hnil]
      rfl
    · rw [if_neg hqa]
      exact ih hl

/-- C10: distinct number sprite slots in the composite sheet are pairwise
disjoint, so any point (in particular any recognized word's bounding-box
center) lies strictly inside at most one number sprite rectangle of the
sprite map, and a single recognized word can set at most one grid cell. -/
theorem c10_sprite_slots_disjoint (width height : ℚ) (ink : Rect → Bool)
    (tickets : List TicketCandidate) :
    (∀ t1 r1 c1 t2 r2 c2 : ℕ, r1 < 3 → c1 < 6 → r2 < 3 → c2 < 6 →
      (t1, r1, c1) ≠ (t2, r2, c2) → ∀ p : ℚ × ℚ,
      ¬(pointInRect p (numberSpriteRect t1 r1 c1) = true ∧
        pointInRect p (numberSpriteRect t2 r2 c2) = true)) ∧
    (∀ p : ℚ × ℚ,
      ((generateCompositeMap width height ink tickets).filter
        (fun m => m.kind = CellKind.number ∧ pointInRect p m.spriteRect)).length ≤ 1) := by
  constructor
  · intro t1 r1 c1 t2 r2 c2 hr1 hc1 hr2 hc2 hne p
    exact numberSpriteRect_disjoint hr1 hc1 hr2 hc2 hne p
  · intro p
    apply filter_length_le_one
    refine List.Pairwise.imp_of_mem ?_ (compositeMap_pairwise width height ink tickets)
    intro a b ha hb hR hq
    obtain ⟨hqa, hqb⟩ := hq
    rw [decide_eq_true_eq] at hqa hqb
    obtain ⟨hka, hpa⟩ := hqa
    obtain ⟨hkb, hpb⟩ := hqb
    have hsa := mem_compositeMap_shape ha hka
    have hsb := mem_compositeMap_shape hb hkb
    obtain ⟨hra, hca, hrecta⟩ := hsa
    obtain ⟨hrb, hcb, hrectb⟩ := hsb
    rw [hrecta] at hpa
    rw [hrectb] at hpb
    refine numberSpriteRect_disjoint hra hca hrb hcb ?_ p ⟨hpa, hpb⟩
    intro htrip
    have h1 := congrArg Prod.fst htrip
    have h2 := congrArg (fun z => z.2.1) htrip
    have h3 := congrArg (fun z => z.2.2) htrip
    dsimp only at h1 h2 h3
    exact hR hka hkb ⟨h1, h2, h3⟩

/-- C10, witness: two concrete distinct slots cannot both contain the same
point. -/
theorem c10_sprite_slots_disjoint_witness :
    ((0, 0, (0 : ℕ)) ≠ ((0 : ℕ), (0 : ℕ), (1 : ℕ))) ∧
    ¬(pointInRect (450, 450) (numberSpriteRect 0 0 0) = true ∧
      pointInRect (450, 450) (numberSpriteRect 0 0 1) = true) :=
  ⟨by decide,
   (c10_sprite_slots_disjoint 1000 1000 (fun _ => true) []).1 0 0 0 0 0 1
     (by decide) (by decide) (by decide) (by decide) (by decide) (450, 450)⟩

/-- Pushing neighbors only grows the visited set. -/
theorem pushNeighbors_visited_mono (paper : ℤ → ℤ → Bool) (sW sH : ℤ) :
    ∀ (cand : List (ℤ × ℤ)) (s : BfsState),
      s.visited ⊆ (pushNeighbors paper sW sH s cand).visited := by
  intro cand
  induction cand with
  | nil => intro s; exact fun q hq => hq
  | cons q cand ih =>
    intro s
    unfold pushNeighbors
    split
    · exact fun r hr => ih _ (Finset.mem_insert_of_mem hr)
    · exact ih s

/-- Pushing neighbors only grows the stack. -/
theorem pushNeighbors_stack_mono (paper : ℤ → ℤ → Bool) (sW sH : ℤ) :
    ∀ (cand : List (ℤ × ℤ)) (s : BfsState) (q : ℤ × ℤ),
      q ∈ s.stack → q ∈ (pushNeighbors paper sW sH s cand).stack := by
  intro cand
  induction cand with
  | nil => intro s q hq; exact hq
  | cons r cand ih =>
    intro s q hq
    unfold pushNeighbors
    split
    · exact ih _ q (List.mem_cons_of_mem r hq)
    · exact ih s q hq

/-- Pushing neighbors does not change the bounding box. -/
theorem pushNeighbors_bbox (paper : ℤ → ℤ → Bool) (sW sH : ℤ) :
    ∀ (cand : List (ℤ × ℤ)) (s : BfsState),
      (pushNeighbors paper sW sH s cand).minX = s.minX ∧
      (pushNeighbors paper sW sH s cand).maxX = s.maxX ∧
      (pushNeighbors paper sW sH s cand).minY = s.minY ∧
      (pushNeighbors paper sW sH s cand).maxY = s.maxY := by
  intro cand
  induction cand with
  | nil => intro s; exact ⟨rfl, rfl, rfl, rfl⟩
  | cons q cand ih =>
    intro s
    unfold pushNeighbors
    split
    · exact ih _
    · exact ih s

/-- Every stack cell after pushing was on the stack before or is one of the
candidates. -/
theorem pushNeighbors_stack_src (paper : ℤ → ℤ → Bool) (sW sH : ℤ) :
    ∀ (cand : List (ℤ × ℤ)) (s : BfsState) (q : ℤ × ℤ),
      q ∈ (pushNeighbors paper sW sH s cand).stack →
      q ∈ s.stack ∨ (q ∈ cand ∧ q ∈ gridCells sW sH) := by
  intro cand
  induction cand with
  | nil => intro s q hq; exact Or.inl hq
  | cons r cand ih =>
    intro s q hq
    unfold pushNeighbors at hq
    split at hq
    · rename_i hcond
      rcases ih _ q hq with hq2 | hq2
      · rcases List.mem_cons.mp hq2 with rfl | hq3
        · refine Or.inr ⟨List.mem_cons_self q cand, ?_⟩
          unfold gridCells
          rw [Finset.mem_product, Finset.mem_Ico, Finset.mem_Ico]
          exact ⟨⟨hcond.1, hcond.2.1⟩, ⟨hcond.2.2.1, hcond.2.2.2.1⟩⟩
        · exact Or.inl hq3
      · exact Or.inr ⟨List.mem_cons_of_mem r hq2.1, hq2.2⟩
    · rcases ih s q hq with hq2 | hq2
      · exact Or.inl hq2
      · exact Or.inr ⟨List.mem_cons_of_mem r hq2.1, hq2.2⟩

/-- Stack cells stay visited through pushing. -/
theorem pushNeighbors_stack_visited (paper : ℤ → ℤ → Bool) (sW sH : ℤ) :
    ∀ (cand : List (ℤ × ℤ)) (s : BfsState),
      (∀ q ∈ s.stack, q ∈ s.visited) →
      ∀ q ∈ (pushNeighbors paper sW sH s cand).stack,
        q ∈ (pushNeighbors paper sW sH s cand).visited := by
  intro cand
  induction cand with
  | nil => intro s h q hq; exact h q hq
  | cons r cand ih =>
    intro s h q hq
    unfold pushNeighbors at hq ⊢
    by_cases hcond : 0 ≤ r.1 ∧ r.1 < sW ∧ 0 ≤ r.2 ∧ r.2 < sH ∧ r ∉ s.visited ∧ paper r.1 r.2
    · rw [if_pos hcond] at hq ⊢
      refine ih _ ?_ q hq
      intro x hx
      rcases List.mem_cons.mp hx with rfl | hx2
      · exact Finset.mem_insert_self x _
      · exact Finset.mem_insert_of_mem (h x hx2)
    · rw [if_neg hcond] at hq ⊢
      exact ih s h q hq

/-- Every in-grid paper candidate ends up visited after pushing. -/
theorem pushNeighbors_covers (paper : ℤ → ℤ → Bool) (sW sH : ℤ)
    (hp : ∀ x y, paper x y = true) :
    ∀ (cand : List (ℤ × ℤ)) (s : BfsState),
      ∀ q ∈ cand, q ∈ gridCells sW sH →
        q ∈ (pushNeighbors paper sW sH s cand).visited := by
  intro cand
  induction cand with
  | nil => intro s q hq; cases hq
  | cons r cand ih =>
    intro s q hq hg
    rcases List.mem_cons.mp hq with rfl | hq2
    · unfold pushNeighbors
      unfold gridCells at hg
      rw [Finset.mem_product, Finset.mem_Ico, Finset.mem_Ico] at hg
      by_cases hv : q ∈ s.visited
      · split
        · exact pushNeighbors_visited_mono paper sW sH cand _
            (Finset.mem_insert_of_mem hv)
        · exact pushNeighbors_visited_mono paper sW sH cand s hv
      · rw [if_pos ⟨hg.1.1, hg.1.2, hg.2.1, hg.2.2, hv, hp q.1 q.2⟩]
        exact pushNeighbors_visited_mono paper sW sH cand _ (Finset.mem_insert_self q _)
    · unfold pushNeighbors
      split
      · exact ih _ q hq2 hg
      · exact ih s q hq2 hg

/-- Every visited cell after pushing was visited before or is on the new
stack. -/
theorem pushNeighbors_visited_src (paper : ℤ → ℤ → Bool) (sW sH : ℤ) :
    ∀ (cand : List (ℤ × ℤ)) (s : BfsState) (q : ℤ × ℤ),
      q ∈ (pushNeighbors paper sW sH s cand).visited →
      q ∈ s.visited ∨ q ∈ (pushNeighbors paper sW sH s cand).stack := by
  intro cand
  induction cand with
  | nil => intro s q hq; exact Or.inl hq
  | cons r cand ih =>
    intro s q hq
    unfold pushNeighbors at hq ⊢
    by_cases hcond : 0 ≤ r.1 ∧ r.1 < sW ∧ 0 ≤ r.2 ∧ r.2 < sH ∧ r ∉ s.visited ∧ paper r.1 r.2
    · rw [if_pos hcond] at hq ⊢
      rcases ih _ q hq with hq2 | hq2
      · rcases Finset.mem_insert.mp hq2 with rfl | hq3
        · exact Or.inr
            (pushNeighbors_stack_mono paper sW sH cand _ q (List.mem_cons_self q _))
        · exact Or.inl hq3
      · exact Or.inr hq2
    · rw [if_neg hcond] at hq ⊢
      rcases ih s q hq with hq2 | hq2
      · exact Or.inl hq2
      · exact Or.inr hq2

/-- Pushing neighbors preserves the sum of stack length and unvisited-cell
count: each push trades one unvisited grid cell for one stack entry. -/
theorem pushNeighbors_measure (paper : ℤ → ℤ → Bool) (sW sH : ℤ) :
    ∀ (cand : List (ℤ × ℤ)) (s : BfsState),
      (pushNeighbors paper sW sH s cand).stack.length +
        (gridCells sW sH \ (pushNeighbors paper sW sH s cand).visited).card =
      s.stack.length + (gridCells sW sH \ s.visited).card := by
  intro cand
  induction cand with
  | nil => intro s; rfl
  | cons q cand ih =>
    intro s
    unfold pushNeighbors
    by_cases hcond : 0 ≤ q.1 ∧ q.1 < sW ∧ 0 ≤ q.2 ∧ q.2 < sH ∧ q ∉ s.visited ∧ paper q.1 q.2
    · rw [if_pos hcond]
      rw [ih]
      have hqg : q ∈ gridCells sW sH := by
        unfold gridCells
        rw [Finset.mem_product, Finset.mem_Ico, Finset.mem_Ico]
        exact ⟨⟨hcond.1, hcond.2.1⟩, ⟨hcond.2.2.1, hcond.2.2.2.1⟩⟩
      have hqm : q ∈ gridCells sW sH \ s.visited :=
        Finset.mem_sdiff.mpr ⟨hqg, hcond.2.2.2.2.1⟩
      have hcard : 1 ≤ (gridCells sW sH \ s.visited).card :=
        Finset.card_pos.mpr ⟨q, hqm⟩
      dsimp only
      rw [Finset.sdiff_insert, Finset.card_erase_of_mem hqm, List.length_cons]
      omega
    · rw [if_neg hcond]
      exact ih s

/-- With fuel at least the measure, the flood-fill loop drains its stack. -/
theorem bfsRun_stack_drains (paper : ℤ → ℤ → Bool) (sW sH : ℤ) :
    ∀ (fuel : ℕ) (s : BfsState),
      s.stack.length + (gridCells sW sH \ s.visited).card ≤ fuel →
      (bfsRun paper sW sH fuel s).stack = [] := by
  intro fuel
  induction fuel with
  | zero =>
    intro s h
    have hnil : s.stack = [] := by
      have := Nat.le_zero.mp h
      exact List.length_eq_zero.mp (by omega)
    unfold bfsRun
    exact hnil
  | succ fuel ih =>
    intro s h
    unfold bfsRun
    cases hst : s.stack with
    | nil => exact hst
    | cons c rest =>
      apply ih
      unfold bfsStep
      rw [pushNeighbors_measure]
      dsimp only
      rw [hst] at h
      rw [List.length_cons] at h
      omega

/-- The flood-fill loop only grows the visited set. -/
theorem bfsRun_visited_mono (paper : ℤ → ℤ → Bool) (sW sH : ℤ) :
    ∀ (fuel : ℕ) (s : BfsState),
      s.visited ⊆ (bfsRun paper sW sH fuel s).visited := by
  intro fuel
  induction fuel with
  | zero => intro s; exact fun q hq => hq
  | succ fuel ih =>
    intro s
    unfold bfsRun
    cases hst : s.stack with
    | nil => exact fun q hq => hq
    | cons c rest =>
      intro q hq
      refine ih _ ?_
      unfold bfsStep
      exact pushNeighbors_visited_mono paper sW sH _ _ hq

/-- One flood-fill step preserves the loop invariant. -/
theorem bfsStep_inv (paper : ℤ → ℤ → Bool) (sW sH : ℤ)
    (hp : ∀ x y, paper x y = true) (s : BfsState) (c : ℤ × ℤ)
    (rest : List (ℤ × ℤ)) (hstack : s.stack = c :: rest)
    (hinv : bfsInv sW sH s) :
    bfsInv sW sH (bfsStep paper sW sH c { s with stack := rest }) := by
  obtain ⟨hstk, ⟨hb1, hb2, hb3, hb4⟩, hbox, hclose⟩ := hinv
  have hcg : c ∈ gridCells sW sH := (hstk c (hstack ▸ List.mem_cons_self c rest)).1
  have hcv : c ∈ s.visited := (hstk c (hstack ▸ List.mem_cons_self c rest)).2
  have hcb : 0 ≤ c.1 ∧ c.1 < sW ∧ 0 ≤ c.2 ∧ c.2 < sH := by
    unfold gridCells at hcg
    rw [Finset.mem_product, Finset.mem_Ico, Finset.mem_Ico] at hcg
    exact ⟨hcg.1.1, hcg.1.2, hcg.2.1, hcg.2.2⟩
  unfold bfsStep
  set s1 : BfsState :=
    { visited := s.visited, stack := rest,
      minX := min s.minX c.1, maxX := max s.maxX c.1,
      minY := min s.minY c.2, maxY := max s.maxY c.2 } with hs1
  show bfsInv sW sH (pushNeighbors paper sW sH s1 (neighborsOf c.1 c.2))
  obtain ⟨hpb1, hpb2, hpb3, hpb4⟩ :=
    pushNeighbors_bbox paper sW sH (neighborsOf c.1 c.2) s1
  have hs1stk : ∀ q ∈ s1.stack, q ∈ s1.visited := by
    intro q hq
    exact (hstk q (hstack ▸ List.mem_cons_of_mem c hq)).2
  refine ⟨?_, ?_, ?_, ?_⟩
  · intro q hq
    constructor
    · rcases pushNeighbors_stack_src paper sW sH _ s1 q hq with hq2 | hq2
      · exact (hstk q (hstack ▸ List.mem_cons_of_mem c hq2)).1
      · exact hq2.2
    · exact pushNeighbors_stack_visited paper sW sH _ s1 hs1stk q hq
  · rw [hpb1, hpb2, hpb3, hpb4]
    dsimp only [hs1]
    refine ⟨le_min hb1 hcb.1, max_lt hb2 hcb.2.1, le_min hb3 hcb.2.2.1,
      max_lt hb4 hcb.2.2.2⟩
  · intro q hq
    rw [hpb1, hpb2, hpb3, hpb4]
    rcases pushNeighbors_visited_src paper sW sH _ s1 q hq with hq2 | hq2
    · rcases hbox q hq2 with hq3 | hq3
      · rw [hstack] at hq3
        rcases List.mem_cons.mp hq3 with rfl | hq4
        · right
          dsimp only [hs1]
          exact ⟨min_le_right _ _, le_max_right _ _, min_le_right _ _, le_max_right _ _⟩
        · left
          exact pushNeighbors_stack_mono paper sW sH _ s1 q hq4
      · right
        dsimp only [hs1]
        exact ⟨le_trans (min_le_left _ _) hq3.1, le_trans hq3.2.1 (le_max_left _ _),
          le_trans (min_le_left _ _) hq3.2.2.1, le_trans hq3.2.2.2 (le_max_left _ _)⟩
    · left
      exact hq2
  · intro q hq
    rcases pushNeighbors_visited_src paper sW sH _ s1 q hq with hq2 | hq2
    · rcases hclose q hq2 with hq3 | hq3
      · rw [hstack] at hq3
        rcases List.mem_cons.mp hq3 with rfl | hq4
        · right
          intro r hr hrg
          exact pushNeighbors_covers paper sW sH hp _ s1 r hr hrg
        · left
          exact pushNeighbors_stack_mono paper sW sH _ s1 q hq4
      · right
        intro r hr hrg
        exact pushNeighbors_visited_mono paper sW sH _ s1 (hq3 r hr hrg)
    · left
      exact hq2

/-- The flood-fill loop preserves its invariant. -/
theorem bfsRun_inv (paper : ℤ → ℤ → Bool) (sW sH : ℤ)
    (hp : ∀ x y, paper x y = true) :
    ∀ (fuel : ℕ) (s : BfsState), bfsInv sW sH s →
      bfsInv sW sH (bfsRun paper sW sH fuel s) := by
  intro fuel
  induction fuel with
  | zero => intro s h; exact h
  | succ fuel ih =>
    intro s h
    unfold bfsRun
    cases hst : s.stack with
    | nil => exact h
    | cons c rest => exact ih _ (bfsStep_inv paper sW sH hp s c rest hst h)

/-- A neighbor-closed visited set containing the origin covers the whole
grid. -/
theorem visited_complete (sW sH : ℤ) (vis : Finset (ℤ × ℤ))
    (hclosed : ∀ q ∈ vis, ∀ r ∈ neighborsOf q.1 q.2, r ∈ gridCells sW sH → r ∈ vis)
    (h00 : ((0:ℤ), (0:ℤ)) ∈ vis) :
    ∀ (j i : ℕ), (i : ℤ) < sW → (j : ℤ) < sH → (((i : ℤ), (j : ℤ))) ∈ vis := by
  intro j
  induction j with
  | zero =>
    intro i
    induction i with
    | zero =>
      intro _ _
      simpa using h00
    | succ i ihi =>
      intro hi hj
      have hi0 : (i : ℤ) < sW := by push_cast at hi ⊢; omega
      have hprev := ihi hi0 hj
      have hnb : (((i:ℤ) + 1, ((0:ℕ) : ℤ))) ∈ neighborsOf (i:ℤ) ((0:ℕ) : ℤ) :=
        List.mem_cons_self _ _
      have hg : (((i:ℤ) + 1, ((0:ℕ) : ℤ))) ∈ gridCells sW sH := by
        unfold gridCells
        rw [Finset.mem_product, Finset.mem_Ico, Finset.mem_Ico]
        push_cast at hi
        constructor
        · exact ⟨by positivity, hi⟩
        · exact ⟨le_refl 0, by exact_mod_cast hj⟩
      have hmem := hclosed _ hprev _ hnb hg
      have hcast : (((i + 1 : ℕ) : ℤ)) = (i : ℤ) + 1 := by push_cast; ring
      rw [hcast]
      exact hmem
  | succ j ihj =>
    intro i hi hj
    have hj0 : (j : ℤ) < sH := by push_cast at hj ⊢; omega
    have hprev := ihj i hi hj0
    have hnb : (((i:ℤ), (j:ℤ) + 1)) ∈ neighborsOf (i:ℤ) (j:ℤ) := by
      unfold neighborsOf
      simp
    have hg : (((i:ℤ), (j:ℤ) + 1)) ∈ gridCells sW sH := by
      unfold gridCells
      rw [Finset.mem_product, Finset.mem_Ico, Finset.mem_Ico]
      push_cast at hj
      constructor
      · exact ⟨Int.ofNat_nonneg i, hi⟩
      · exact ⟨by positivity, hj⟩
    have hmem := hclosed _ hprev _ hnb hg
    have hcast : (((j + 1 : ℕ) : ℤ)) = (j : ℤ) + 1 := by push_cast; ring
    rw [hcast]
    exact hmem

/-- On an all-paper image the flood fill from the origin visits the whole
grid and its bounding box is the full frame. -/
theorem bfs_allpaper_result (paper : ℤ → ℤ → Bool) (sW sH : ℤ)
    (hp : ∀ x y, paper x y = true) (hsW : 0 < sW) (hsH : 0 < sH) :
    (∀ q ∈ gridCells sW sH,
      q ∈ (bfsRun paper sW sH (sW.toNat * sH.toNat + 1)
        { visited := insert ((0:ℤ), (0:ℤ)) ∅, stack := [((0:ℤ), (0:ℤ))],
          minX := 0, maxX := 0, minY := 0, maxY := 0 }).visited) ∧
    (bfsRun paper sW sH (sW.toNat * sH.toNat + 1)
        { visited := insert ((0:ℤ), (0:ℤ)) ∅, stack := [((0:ℤ), (0:ℤ))],
          minX := 0, maxX := 0, minY := 0, maxY := 0 }).minX = 0 ∧
    (bfsRun paper sW sH (sW.toNat * sH.toNat + 1)
        { visited := insert ((0:ℤ), (0:ℤ)) ∅, stack := [((0:ℤ), (0:ℤ))],
          minX := 0, maxX := 0, minY := 0, maxY := 0 }).maxX = sW - 1 ∧
    (bfsRun paper sW sH (sW.toNat * sH.toNat + 1)
        { visited := insert ((0:ℤ), (0:ℤ)) ∅, stack := [((0:ℤ), (0:ℤ))],
          minX := 0, maxX := 0, minY := 0, maxY := 0 }).minY = 0 ∧
    (bfsRun paper sW sH (sW.toNat * sH.toNat + 1)
        { visited := insert ((0:ℤ), (0:ℤ)) ∅, stack := [((0:ℤ), (0:ℤ))],
          minX := 0, maxX := 0, minY := 0, maxY := 0 }).maxY = sH - 1 := by
  set s0 : BfsState :=
    { visited := insert ((0:ℤ), (0:ℤ)) ∅, stack := [((0:ℤ), (0:ℤ))],
      minX := 0, maxX := 0, minY := 0, maxY := 0 } with hs0
  set t := bfsRun paper sW sH (sW.toNat * sH.toNat + 1) s0 with ht
  have h00g : ((0:ℤ), (0:ℤ)) ∈ gridCells sW sH := by
    unfold gridCells
    rw [Finset.mem_product, Finset.mem_Ico, Finset.mem_Ico]
    omega
  have hinv0 : bfsInv sW sH s0 := by
    refine ⟨?_, ⟨le_refl 0, hsW, le_refl 0, hsH⟩, ?_, ?_⟩
    · intro q hq
      have hq0 : q = ((0:ℤ), (0:ℤ)) := List.mem_singleton.mp hq
      subst hq0
      exact ⟨h00g, Finset.mem_insert_self _ _⟩
    · intro q hq
      left
      rcases Finset.mem_insert.mp hq with rfl | h
      · exact List.mem_singleton.mpr rfl
      · exact absurd h (Finset.not_mem_empty q)
    · intro q hq
      left
      rcases Finset.mem_insert.mp hq with rfl | h
      · exact List.mem_singleton.mpr rfl
      · exact absurd h (Finset.not_mem_empty q)
  have hinv := bfsRun_inv paper sW sH hp (sW.toNat * sH.toNat + 1) s0 hinv0
  rw [← ht] at hinv
  have hdrain : t.stack = [] := by
    rw [ht]
    apply bfsRun_stack_drains
    have hcard : (gridCells sW sH).card = sW.toNat * sH.toNat := by
      unfold gridCells
      rw [Finset.card_product, Int.card_Ico, Int.card_Ico]
      simp
    have hsub : insert ((0:ℤ), (0:ℤ)) ∅ ⊆ gridCells sW sH := by
      intro q hq
      rcases Finset.mem_insert.mp hq with rfl | h
      · exact h00g
      · exact absurd h (Finset.not_mem_empty q)
    have hcard2 : (gridCells sW sH \ insert ((0:ℤ), (0:ℤ)) ∅).card =
        sW.toNat * sH.toNat - 1 := by
      rw [Finset.card_sdiff hsub, hcard]
      simp
    have hN : 1 ≤ sW.toNat * sH.toNat := by
      have h1 : 1 ≤ sW.toNat := by omega
      have h2 : 1 ≤ sH.toNat := by omega
      exact Nat.one_le_iff_ne_zero.mpr (by positivity)
    simp only [hs0, List.length_singleton]
    omega
  obtain ⟨hstk, ⟨hb1, hb2, hb3, hb4⟩, hbox, hclose⟩ := hinv
  have hclosed : ∀ q ∈ t.visited, ∀ r ∈ neighborsOf q.1 q.2,
      r ∈ gridCells sW sH → r ∈ t.visited := by
    intro q hq
    rcases hclose q hq with h | h
    · rw [hdrain] at h
      cases h
    · exact h
  have h00v : ((0:ℤ), (0:ℤ)) ∈ t.visited := by
    rw [ht]
    exact bfsRun_visited_mono paper sW sH _ s0 (Finset.mem_insert_self _ _)
  have hall : ∀ q ∈ gridCells sW sH, q ∈ t.visited := by
    intro q hq
    unfold gridCells at hq
    rw [Finset.mem_product, Finset.mem_Ico, Finset.mem_Ico] at hq
    obtain ⟨⟨hq1, hq2⟩, hq3, hq4⟩ := hq
    have hv := visited_complete sW sH t.visited hclosed h00v q.2.toNat q.1.toNat
      (by omega) (by omega)
    have heq : (((q.1.toNat : ℤ)), ((q.2.toNat : ℤ))) = q := by
      have e1 : (q.1.toNat : ℤ) = q.1 := Int.toNat_of_nonneg hq1
      have e2 : (q.2.toNat : ℤ) = q.2 := Int.toNat_of_nonneg hq3
      rw [e1, e2]
    rw [heq] at hv
    exact hv
  have hboxall : ∀ q ∈ t.visited,
      t.minX ≤ q.1 ∧ q.1 ≤ t.maxX ∧ t.minY ≤ q.2 ∧ q.2 ≤ t.maxY := by
    intro q hq
    rcases hbox q hq with h | h
    · rw [hdrain] at h
      cases h
    · exact h
  have h0 := hboxall _ h00v
  have hxg : ((sW - 1 : ℤ), (0:ℤ)) ∈ gridCells sW sH := by
    unfold gridCells
    rw [Finset.mem_product, Finset.mem_Ico, Finset.mem_Ico]
    omega
  have hyg : ((0:ℤ), (sH - 1 : ℤ)) ∈ gridCells sW sH := by
    unfold gridCells
    rw [Finset.mem_product, Finset.mem_Ico, Finset.mem_Ico]
    omega
  have hx := hboxall _ (hall _ hxg)
  have hy := hboxall _ (hall _ hyg)
  refine ⟨hall, ?_, ?_, ?_, ?_⟩
  · obtain ⟨a, _, _, _⟩ := h0
    omega
  · obtain ⟨_, a, _, _⟩ := hx
    omega
  · obtain ⟨_, _, a, _⟩ := h0
    omega
  · obtain ⟨_, _, _, a⟩ := hy
    omega

/-- On an all-paper image the very first outer-loop cell floods the whole
grid and its full-frame bounding box fails the size filter, so no component
is recorded. -/
theorem handleCell_first (paper : ℤ → ℤ → Bool) (sW sH : ℤ) (scale : ℚ)
    (hp : ∀ x y, paper x y = true) (hsW : 0 < sW) (hsH : 0 < sH) :
    (∀ q ∈ gridCells sW sH,
      q ∈ (handleCell paper sW sH scale ⟨∅, []⟩ ((0:ℤ), (0:ℤ))).visited) ∧
    (handleCell paper sW sH scale ⟨∅, []⟩ ((0:ℤ), (0:ℤ))).components = [] := by
  obtain ⟨hall, hmin, hmax, hminy, hmaxy⟩ := bfs_allpaper_result paper sW sH hp hsW hsH
  unfold handleCell
  rw [if_neg (Finset.not_mem_empty _)]
  rw [if_neg (fun h => h (hp 0 0))]
  dsimp only
  constructor
  · intro q hq
    exact hall q hq
  · rw [hmax, hmin]
    split
    · rename_i haccept
      exfalso
      obtain ⟨_, _, hlast⟩ := haccept
      have hsWq : (1 : ℚ) ≤ (sW : ℚ) := by exact_mod_cast hsW
      have heq : ((sW - 1 - 0 + 1 : ℤ) : ℚ) = (sW : ℚ) := by push_cast; ring
      rw [heq] at hlast
      linarith
    · rfl

/-- Every scanned cell lies in the grid. -/
theorem mem_cellScan {sW sH : ℤ} {c : ℤ × ℤ} (hc : c ∈ cellScan sW sH) :
    c ∈ gridCells sW sH := by
  unfold cellScan at hc
  rw [List.mem_flatMap] at hc
  obtain ⟨y, hy, hc⟩ := hc
  rw [List.mem_map] at hc
  obtain ⟨x, hx, rfl⟩ := hc
  rw [List.mem_range] at hx hy
  unfold gridCells
  rw [Finset.mem_product, Finset.mem_Ico, Finset.mem_Ico]
  constructor
  · constructor <;> omega
  · constructor <;> omega

/-- With positive dimensions the scan starts at the origin. -/
theorem cellScan_cons (sW sH : ℤ) (hsW : 0 < sW) (hsH : 0 < sH) :
    ∃ cs, cellScan sW sH = ((0:ℤ), (0:ℤ)) :: cs := by
  obtain ⟨k, hk⟩ : ∃ k, sH.toNat = k + 1 := ⟨sH.toNat - 1, by omega⟩
  obtain ⟨m, hm⟩ : ∃ m, sW.toNat = m + 1 := ⟨sW.toNat - 1, by omega⟩
  unfold cellScan
  rw [hk, hm, List.range_succ_eq_map, List.flatMap_cons, List.range_succ_eq_map,
    List.map_cons, List.cons_append]
  exact ⟨_, rfl⟩

/-- Outer-loop cells that are already visited leave the scan state
unchanged. -/
theorem foldl_handleCell_skip (paper : ℤ → ℤ → Bool) (sW sH : ℤ) (scale : ℚ) :
    ∀ (cells : List (ℤ × ℤ)) (st : DetectState),
      (∀ c ∈ cells, c ∈ st.visited) →
      cells.foldl (handleCell paper sW sH scale) st = st := by
  intro cells
  induction cells with
  | nil => intro st _; rfl
  | cons c cells ih =>
    intro st h
    rw [List.foldl_cons]
    have hc : handleCell paper sW sH scale st c = st := by
      unfold handleCell
      rw [if_pos (h c (List.mem_cons_self c cells))]
    rw [hc]
    exact ih st (fun d hd => h d (List.mem_cons_of_mem c hd))

/-- C9: on an all-white input image (every pixel classified Paper), the
component detector returns zero components -- the single full-frame white
region is rejected by the size filter -- and fast validation consequently
reports no valid ticket and a ticket count of zero. -/
theorem c9_all_white_no_components (width height : ℕ) (hw : 1 ≤ width) :
    findWhiteComponents (fun _ => true) width height = [] ∧
    validateTicketImage (fun _ => true) width height =
      { isValid := false,
        message := "Kein Schein erkannt. Bitte näher rangehen oder Licht verbessern.",
        ticketCount := 0 } := by
  have hmain : findWhiteComponents (fun _ => true) width height = [] := by
    unfold findWhiteComponents
    dsimp only
    have h300 : (width : ℚ) * (300 / (width : ℚ)) = 300 := by
      have hwQ : ((width : ℚ)) ≠ 0 := Nat.cast_ne_zero.mpr (by omega)
      field_simp
    rw [h300]
    rw [show (⌊(300 : ℚ)⌋ : ℤ) = 300 by
      rw [show (300 : ℚ) = ((300 : ℤ) : ℚ) by norm_num]
      exact Int.floor_intCast 300]
    set sH : ℤ := ⌊(height : ℚ) * (300 / (width : ℚ))⌋ with hsHdef
    set pp := paperAt (fun _ => true) width (300 / (width : ℚ)) with hppdef
    have hp : ∀ x y, pp x y = true := fun _ _ => rfl
    rcases le_or_lt sH 0 with hneg | hpos
    · have htn : sH.toNat = 0 := by omega
      have hscan : cellScan 300 sH = [] := by
        unfold cellScan
        rw [htn]
        rfl
      rw [hscan]
      rfl
    · obtain ⟨cs, hcs⟩ := cellScan_cons 300 sH (by norm_num) hpos
      rw [hcs, List.foldl_cons]
      obtain ⟨hvis, hcomp⟩ :=
        handleCell_first pp 300 sH (300 / (width : ℚ)) hp (by norm_num) hpos
      have hskip := foldl_handleCell_skip pp 300 sH (300 / (width : ℚ)) cs
        (handleCell pp 300 sH (300 / (width : ℚ)) ⟨∅, []⟩ ((0:ℤ), (0:ℤ)))
        (fun c hc => hvis c (mem_cellScan (by
          rw [hcs]
          exact List.mem_cons_of_mem _ hc)))
      rw [hskip]
      exact hcomp
  refine ⟨hmain, ?_⟩
  unfold validateTicketImage detectTicketsInImage
  rw [hmain]
  rfl

/-- C9, witness: a concrete all-white 300 by 300 image yields no components
and an invalid validation result. -/
theorem c9_all_white_no_components_witness :
    (1 ≤ 300) ∧
    (findWhiteComponents (fun _ => true) 300 300 = [] ∧
     validateTicketImage (fun _ => true) 300 300 =
       { isValid := false,
         message := "Kein Schein erkannt. Bitte näher rangehen oder Licht verbessern.",
         ticketCount := 0 }) :=
  ⟨by decide, c9_all_white_no_components 300 300 (by decide)⟩

end Kellerbingo
